import Mathlib

/-!
# Shipyard: a shallow embedding of the deployment control plane

This file embeds, in Lean, the parts of the shipyard repository that the
verified properties talk about:

* the Go standard-library path functions (Unix rules) used by the artifact
  store: filepath.Clean, filepath.IsAbs, filepath.Join, filepath.Rel,
  filepath.Dir and strings.HasPrefix;
* zip extraction with its zip-slip defense (deploy, extractZipEntry);
* promotion of the latest symlink (deploy, updateLatestSymlink);
* the self-updater (update.Update, update.Rollback);
* the nginx manager (nginx.DeploySiteConfigRaw, nginx.DeployHTTPOnlyConfig,
  nginx.RemoveSiteConfigByDomain);
* site creation (server.SiteCreate);
* the health monitor tick (health.checkAllServices);
* request authentication (server.SiteAuth) and commit-id validation
  (server.isValidCommitHash).

External subprocesses (the nginx validator and reloader, the ACME client,
the spawned binary during self-update validation) are modelled as boolean
outcome parameters, and filesystem writes that the relevant control flow
never branches on are modelled as succeeding; both choices are noted at
each definition.  Strings are computed on through their underlying
character lists.
-/

namespace Shipyard

/-! ## Path layer: Go filepath (Unix) -/

/-- One step of splitting a character list at '/' separators. -/
def splitStep (c : Char) (r : List (List Char)) : List (List Char) :=
  if c = '/' then [] :: r
  else
    match r with
    | g :: gs => (c :: g) :: gs
    | [] => [[c]]

/-- Split a character list into the segments between '/' separators.
The result always has at least one (possibly empty) segment. -/
def splitSlash (l : List Char) : List (List Char) :=
  l.foldr splitStep [[]]

/-- Join segments with '/' separators; the inverse of splitSlash. -/
def joinSlash : List (List Char) → List Char
  | [] => []
  | [g] => g
  | g :: gs => g ++ '/' :: joinSlash gs

/-- The element-processing loop of Go filepath.Clean: empty and "."
segments are dropped; ".." pops a segment when one is poppable, is dropped
at the root of a rooted path, and is kept on a relative path that has
nothing left to pop.  The stack holds segments in reverse order. -/
def cleanLoop (rooted : Bool) : List (List Char) → List (List Char) → List (List Char)
  | stack, [] => stack
  | stack, e :: rest =>
    if e = [] ∨ e = ['.'] then cleanLoop rooted stack rest
    else if e = ['.', '.'] then
      match stack with
      | [] => if rooted then cleanLoop rooted [] rest else cleanLoop rooted [['.', '.']] rest
      | top :: others =>
        if top = ['.', '.'] then cleanLoop rooted (['.', '.'] :: (top :: others)) rest
        else cleanLoop rooted others rest
    else cleanLoop rooted (e :: stack) rest

/-- Go filepath.Clean on the underlying character list (Unix rules). -/
def cleanCore (l : List Char) : List Char :=
  if l = [] then ['.']
  else if l.head? = some '/' then
    '/' :: joinSlash (cleanLoop true [] (splitSlash l)).reverse
  else if cleanLoop false [] (splitSlash l) = [] then ['.']
  else joinSlash (cleanLoop false [] (splitSlash l)).reverse

/-- Go filepath.Clean (Unix rules). -/
def goClean (s : String) : String := ⟨cleanCore s.data⟩

/-- Go strings.HasPrefix. -/
def goStartsWith (s pre : String) : Bool := pre.data.isPrefixOf s.data

/-- Go filepath.IsAbs (Unix rules): the path begins with a slash. -/
def goIsAbs (s : String) : Bool := goStartsWith s "/"

/-- Go filepath.Join on two elements: empty elements are skipped and the
rest is joined with a separator and cleaned. -/
def goJoin (a b : String) : String :=
  if a = "" then (if b = "" then "" else goClean b)
  else goClean ⟨a.data ++ '/' :: b.data⟩

/-- Go filepath.Dir: everything up to and including the final separator,
cleaned; "." when the path has no separator. -/
def goDir (s : String) : String :=
  ⟨cleanCore ((s.data.reverse.dropWhile (· ≠ '/')).reverse)⟩

/-- The path segments a cleaned path contributes to filepath.Rel's
element-by-element comparison: "." and "/" contribute none, and a leading
slash is dropped (Rel only compares two paths of equal rootedness). -/
def relSegs (l : List Char) : List (List Char) :=
  if l = ['.'] then []
  else
    match l with
    | '/' :: rest => if rest = [] then [] else splitSlash rest
    | _ => splitSlash l

/-- Drop the common leading segments of two segment lists. -/
def dropCommon : List (List Char) → List (List Char) → List (List Char) × List (List Char)
  | x :: xs, y :: ys =>
    if x = y then dropCommon xs ys else (x :: xs, y :: ys)
  | xs, ys => (xs, ys)

/-- Go filepath.Rel (Unix rules), modelled segment-by-segment: both paths
are cleaned; equal paths give "."; mixed rootedness is an error; otherwise
the common prefix is dropped, a remaining ".." base segment is an error,
and the result climbs out of the remaining base segments then descends
into the remaining target segments. -/
def goRel (basepath targpath : String) : Except String String :=
  let base := cleanCore basepath.data
  let targ := cleanCore targpath.data
  if targ = base then .ok "."
  else
    let baseSlashed := base.head? = some '/'
    let targSlashed := targ.head? = some '/'
    if baseSlashed ≠ targSlashed then
      .error "Rel: cannot make target relative to base"
    else
      let rests := dropCommon (relSegs base) (relSegs targ)
      if rests.1.head? = some ['.', '.'] then
        .error "Rel: cannot make target relative to base"
      else
        .ok ⟨joinSlash (List.replicate rests.1.length ['.', '.'] ++ rests.2)⟩

/-! ## Zip extraction with zip-slip defense (deploy.extractZipEntry) -/

/-- A zip archive entry: its name and whether its file info marks it as a
directory. -/
structure ZipEntry where
  name : String
  isDir : Bool
  deriving DecidableEq

/-- A filesystem write performed during extraction: a recursive directory
creation, or the creation of a file holding the named entry's bytes. -/
inductive FsWrite where
  | mkdirAll (path : String)
  | createFile (path : String) (entry : String)
  deriving DecidableEq

/-- deploy.extractZipEntry: clean the entry name, reject it when the clean
path is absolute or begins with "..", join it onto the target directory,
reject it when Rel fails or escapes, then create the directory (for a
directory entry) or the parent directory and the file.  Filesystem calls
are modelled by the writes they perform. -/
def extractZipEntry (targetDir : String) (f : ZipEntry) : Except String (List FsWrite) :=
  let cleanPath := goClean f.name
  if goStartsWith cleanPath ".." || goIsAbs cleanPath then
    .error ("zip slip detected: " ++ f.name)
  else
    let fullPath := goJoin targetDir cleanPath
    match goRel targetDir fullPath with
    | .error _ => .error ("zip slip detected: " ++ f.name)
    | .ok rel =>
      if goStartsWith rel ".." then
        .error ("zip slip detected: " ++ f.name)
      else if f.isDir then
        .ok [.mkdirAll fullPath]
      else
        .ok [.mkdirAll (goDir fullPath), .createFile fullPath f.name]

/-- deploy.extractZip over the entries of an archive: entries are
extracted in order and the first error aborts, keeping the writes already
performed.  Returns the error, if any, and the performed writes. -/
def extractZip (targetDir : String) : List ZipEntry → Option String × List FsWrite
  | [] => (none, [])
  | f :: rest =>
    match extractZipEntry targetDir f with
    | .error e => (some e, [])
    | .ok w =>
      let r := extractZip targetDir rest
      (r.1, w ++ r.2)

/-- A path is within a directory when it is the directory itself or a
slash-separated descendant of it. -/
def isWithin (dir p : String) : Bool :=
  p = dir || (dir.data ++ ['/']).isPrefixOf p.data

/-- The write target of a filesystem write. -/
def FsWrite.target : FsWrite → String
  | .mkdirAll p => p
  | .createFile p _ => p

/-! ## Association-list helpers (string-keyed maps) -/

/-- First binding for a key. -/
def alGet {β : Type} (l : List (String × β)) (k : String) : Option β :=
  (l.find? (fun e => e.1 == k)).map (·.2)

/-- Replace or insert a binding. -/
def alSet {β : Type} (l : List (String × β)) (k : String) (v : β) : List (String × β) :=
  (k, v) :: l.filter (fun e => e.1 != k)

/-- Remove a binding. -/
def alRemove {β : Type} (l : List (String × β)) (k : String) : List (String × β) :=
  l.filter (fun e => e.1 != k)

/-! ## Promotion of the latest symlink (deploy.updateLatestSymlink) -/

/-- What os.Lstat reports at the latest path: nothing, a symlink, or a
regular file or directory. -/
inductive LatestNode where
  | regular
  | symlink (target : String)
  deriving DecidableEq

/-- A filesystem action performed by updateLatestSymlink. -/
inductive LatestAction where
  | removeTmp
  | removeAllLatest
  | statIndex (path : String)
  | symlinkTo (target linkPath : String)
  | rename (src dst : String)
  deriving DecidableEq

/-- The build output directories probed by updateLatestSymlink, in source
order. -/
def buildSubdirs : List String := ["dist", "build", "out", "public"]

/-- The subdirectory scan of updateLatestSymlink: walks the candidate
subdirectories in order, stats commitDir/subdir/index.html, and stops at
the first hit, whose target is commitHash/subdir; otherwise the target is
the commit hash itself.  Returns the target and the statted paths. -/
def scanSubdirs (files : List String) (commitDir commitHash : String) :
    List String → String × List String
  | [] => (commitHash, [])
  | subdir :: rest =>
    let indexPath := goJoin (goJoin commitDir subdir) "index.html"
    if files.contains indexPath then (goJoin commitHash subdir, [indexPath])
    else
      let r := scanSubdirs files commitDir commitHash rest
      (r.1, indexPath :: r.2)

/-- deploy.updateLatestSymlink on its success path: remove a stale
latest.tmp, heal a non-symlink latest, detect the content directory, then
symlink the target to latest.tmp and atomically rename latest.tmp onto
latest.  The filesystem is read through the list of existing file paths
and the lstat result at the latest path; the returned pair is the chosen
symlink target and the performed actions in order. -/
def updateLatestSymlink (files : List String) (latestNode : Option LatestNode)
    (frontendRoot commitHash : String) : String × List LatestAction :=
  let latestPath := goJoin frontendRoot "latest"
  let tmpPath := goJoin frontendRoot "latest.tmp"
  let healActions : List LatestAction :=
    match latestNode with
    | some .regular => [.removeAllLatest]
    | _ => []
  let commitDir := goJoin frontendRoot commitHash
  let scan := scanSubdirs files commitDir commitHash buildSubdirs
  (scan.1, .removeTmp :: healActions ++ scan.2.map .statIndex ++
    [.symlinkTo scan.1 tmpPath, .rename tmpPath latestPath])

/-- The specification's detection rule, stated in its own words: scan
dist, build, out, public in that fixed order; the target is
commit_id/subdir for the first subdir containing index.html, otherwise the
commit root. -/
def specLatestTarget (files : List String) (frontendRoot commitHash : String) : String :=
  match buildSubdirs.find? (fun sub =>
      files.contains (goJoin (goJoin (goJoin frontendRoot commitHash) sub) "index.html")) with
  | some sub => commitHash ++ "/" ++ sub
  | none => commitHash

/-! ## Self-updater (update.Update, update.Rollback) -/

/-- A file in the binary-triple model: its bytes (an abstract type) and
its executable bit. -/
structure BinFile (α : Type) where
  content : α
  exec : Bool
  deriving DecidableEq

/-- The three paths handled by update.Updater: the live binary P, P.new
and P.old. -/
structure BinState (α : Type) where
  p : Option (BinFile α)
  pnew : Option (BinFile α)
  pold : Option (BinFile α)
  deriving DecidableEq

/-- update.writeNewBinary: creates P.new with permissions 0755 holding the
uploaded bytes (create, copy, fsync on the success path). -/
def writeNewBinary {α : Type} (st : BinState α) (data : α) : BinState α :=
  ⟨st.p, some ⟨data, true⟩, st.pold⟩

/-- update.validateBinary on P.new: errors when the file is missing or not
executable; otherwise reports the outcome of spawning "P.new version",
modelled by the valid oracle — true means the process exits zero within
the 10-second timeout, false covers both a non-zero exit and a timeout. -/
def validateBinary {α : Type} (valid : α → Bool) (file : Option (BinFile α)) :
    Option String :=
  match file with
  | none => some "stat binary"
  | some f =>
    if !f.exec then some "binary is not executable"
    else if valid f.content then none
    else some "binary validation failed or timed out"

/-- update.atomicReplace: remove any stale P.old, rename P to P.old, then
rename P.new onto P; if the backup rename fails (no live binary) the
operation aborts, and if the final rename fails (no P.new) the backup is
restored.  In this model a rename fails exactly when its source is
missing. -/
def atomicReplace {α : Type} (st : BinState α) : Option String × BinState α :=
  match st.p with
  | none => (some "backup current binary", ⟨st.p, st.pnew, none⟩)
  | some cur =>
    match st.pnew with
    | none => (some "rename new binary", ⟨some cur, none, none⟩)
    | some nf => (none, ⟨some nf, none, some cur⟩)

/-- update.Update: write the upload to P.new, validate it — deleting P.new
and returning the error on failure — then atomically replace, deleting
P.new on a replace error.  Returns the error, if any, and the resulting
file state. -/
def update {α : Type} (valid : α → Bool) (data : α) (st : BinState α) :
    Option String × BinState α :=
  let st1 := writeNewBinary st data
  match validateBinary valid st1.pnew with
  | some e => (some ("validate binary: " ++ e), ⟨st1.p, none, st1.pold⟩)
  | none =>
    match atomicReplace st1 with
    | (some e, st2) => (some ("atomic replace: " ++ e), ⟨st2.p, none, st2.pold⟩)
    | (none, st2) => (none, st2)

/-- update.Rollback: requires P.old; removes any stale P.new, moves the
live binary aside to P.new, restores P.old onto P, then removes the
left-over P.new. -/
def rollback {α : Type} (st : BinState α) : Option String × BinState α :=
  match st.pold with
  | none => (some "no backup found", st)
  | some old =>
    match st.p with
    | none => (some "move current binary", ⟨st.p, none, st.pold⟩)
    | some _ => (none, ⟨some old, none, none⟩)

/-! ## Site and registry model (config.SiteConfig, config.Config.Site) -/

/-- config.BackendConfig. -/
structure BackendModel where
  jailName : String
  jailIP : String
  listenPort : Nat
  proxyPath : String
  binaryName : String
  deriving DecidableEq

/-- config.SiteConfig: the per-site registry record, keyed by domain. -/
structure SiteModel where
  frontendRoot : String
  apiKey : String
  overrideIPs : List String
  sslEnabled : Bool
  backend : Option BackendModel
  deriving DecidableEq

/-- config.SiteConfig.IsBackendOnly. -/
def SiteModel.isBackendOnly (s : SiteModel) : Bool :=
  s.backend.isSome && s.frontendRoot == ""

/-! ## Nginx manager (nginx.Manager) -/

/-- A node in the nginx configuration tree: a regular file with contents
or a symlink with its target. -/
inductive NgxNode where
  | file (content : String)
  | symlink (target : String)
  deriving DecidableEq

/-- An action performed by the nginx manager, in execution order:
directory creation, file writes and removals, symlink creation, the
external whole-tree validation probe, and the reload signal. -/
inductive NgxEvent where
  | mkdirAll (path : String)
  | writeFile (path : String) (content : String)
  | removePath (path : String)
  | symlinkTo (target linkPath : String)
  | validate
  | reload
  deriving DecidableEq

/-- The configuration slice the nginx manager reads: the staging and
active directories, the override.conf path, the registered site names, and
the override.conf text regenerated on each deploy (an opaque deterministic
function of the registry, carried as a field because no claim below
depends on its text). -/
structure NgxConfig where
  sitesAvailable : String
  sitesEnabled : String
  overrideConf : String
  sites : List String
  overrideContent : String
  deriving DecidableEq

/-- sites-available/<site>.conf. -/
def availablePath (cfg : NgxConfig) (site : String) : String :=
  goJoin cfg.sitesAvailable (site ++ ".conf")

/-- sites-enabled/<site>.conf. -/
def enabledPath (cfg : NgxConfig) (site : String) : String :=
  goJoin cfg.sitesEnabled (site ++ ".conf")

/-- nginx.symlinkSiteConfig on its success path: ensure sites-enabled,
remove any existing entry, and link enabled/<site>.conf to
available/<site>.conf. -/
def symlinkSiteConfig (cfg : NgxConfig) (site : String)
    (fs : List (String × NgxNode)) :
    Option String × List (String × NgxNode) × List NgxEvent :=
  if cfg.sites.contains site then
    (none,
      alSet (alRemove fs (enabledPath cfg site)) (enabledPath cfg site)
        (.symlink (availablePath cfg site)),
      [.mkdirAll cfg.sitesEnabled, .removePath (enabledPath cfg site),
        .symlinkTo (availablePath cfg site) (enabledPath cfg site)])
  else (some "site not found", fs, [])

/-- The result triple of nginx.DeploySiteConfigRaw: the reloaded flag, the
validator's message, and the Go error. -/
structure DeployResult where
  reloaded : Bool
  errMsg : String
  goErr : Option String
  deriving DecidableEq

/-- nginx.DeploySiteConfigRaw: write the rendered config to
sites-available, regenerate override.conf, run the external whole-tree
validator (modelled by its outcome pair: ok flag and error text), and only
on success symlink into sites-enabled and signal a reload (the reloader's
outcome is the reloadOk parameter).  File writes are modelled on their
success path.  Returns the result, the filesystem and the actions in
order. -/
def deploySiteConfigRaw (cfg : NgxConfig) (validator : Bool × String)
    (reloadOk : Bool) (site content : String) (fs : List (String × NgxNode)) :
    DeployResult × List (String × NgxNode) × List NgxEvent :=
  if cfg.sites.contains site then
    let fs2 := alSet (alSet fs (availablePath cfg site) (.file content))
      cfg.overrideConf (.file cfg.overrideContent)
    let ev0 : List NgxEvent := [.mkdirAll cfg.sitesAvailable,
      .writeFile (availablePath cfg site) content,
      .writeFile cfg.overrideConf cfg.overrideContent, .validate]
    if validator.1 then
      match symlinkSiteConfig cfg site fs2 with
      | (some e, fs3, ev1) => (⟨false, "", some e⟩, fs3, ev0 ++ ev1)
      | (none, fs3, ev1) =>
        if reloadOk then (⟨true, "", none⟩, fs3, ev0 ++ ev1 ++ [.reload])
        else (⟨false, "", some "nginx reload"⟩, fs3, ev0 ++ ev1 ++ [.reload])
    else (⟨false, validator.2, none⟩, fs2, ev0)
  else (⟨false, "", some "site not found"⟩, fs, [])

/-- nginx.DeployHTTPOnlyConfig: ensure both directories, write the minimal
ACME challenge config (its generated text is an opaque function of the
domain, carried as the httpOnlyContent parameter), link it into
sites-enabled, then validate; on validation failure remove both the
enabled and the available entry and return the error; on success reload. -/
def deployHTTPOnlyConfig (cfg : NgxConfig) (validator : Bool × String)
    (reloadOk : Bool) (httpOnlyContent : String) (domain : String)
    (fs : List (String × NgxNode)) :
    Option String × List (String × NgxNode) × List NgxEvent :=
  let ap := availablePath cfg domain
  let ep := enabledPath cfg domain
  let fs2 := alSet (alRemove (alSet fs ap (.file httpOnlyContent)) ep) ep (.symlink ap)
  let ev0 : List NgxEvent := [.mkdirAll cfg.sitesAvailable, .mkdirAll cfg.sitesEnabled,
    .writeFile ap httpOnlyContent, .removePath ep, .symlinkTo ap ep, .validate]
  if validator.1 then
    if reloadOk then (none, fs2, ev0 ++ [.reload])
    else (some "nginx reload", fs2, ev0 ++ [.reload])
  else
    (some ("nginx validation failed: " ++ validator.2),
      alRemove (alRemove fs2 ep) ap, ev0 ++ [.removePath ep, .removePath ap])

/-- nginx.RemoveSiteConfigByDomain: unconditionally removes both entries
and asks for a reload, ignoring the reload outcome. -/
def removeSiteConfigByDomain (cfg : NgxConfig) (domain : String)
    (fs : List (String × NgxNode)) : List (String × NgxNode) × List NgxEvent :=
  (alRemove (alRemove fs (enabledPath cfg domain)) (availablePath cfg domain),
    [.removePath (enabledPath cfg domain), .removePath (availablePath cfg domain),
      .reload])

/-- True when no enabled-symlink creation appears in the trace before the
first whole-tree validation. -/
def symlinkOnlyAfterValidate : List NgxEvent → Bool
  | [] => true
  | .validate :: _ => true
  | .symlinkTo _ _ :: _ => false
  | _ :: rest => symlinkOnlyAfterValidate rest

/-! ## Site creation (server.SiteCreate) -/

/-- server.SiteCreateRequest. -/
structure SiteCreateRequest where
  domain : String
  frontendRoot : String
  sslEnabled : Bool
  withBackend : Bool
  backendPort : Nat
  proxyPath : String
  deriving DecidableEq

/-- A character allowed in the middle of a domain by the validDomain
pattern of server: lowercase letters, digits, dots and hyphens. -/
def isDomainBodyChar (c : Char) : Bool :=
  ('a' ≤ c && c ≤ 'z') || ('0' ≤ c && c ≤ '9') || c = '.' || c = '-'

/-- A character allowed at either end of a domain: lowercase letters and
digits. -/
def isDomainEdgeChar (c : Char) : Bool :=
  ('a' ≤ c && c ≤ 'z') || ('0' ≤ c && c ≤ '9')

/-- The compiled form of server's anchored validDomain pattern: an
alphanumeric first character, body characters, and an alphanumeric last
character (so at least two characters). -/
def matchesValidDomain (s : String) : Bool :=
  match s.data with
  | [] => false
  | [_] => false
  | c :: rest =>
    isDomainEdgeChar c && rest.dropLast.all isDomainBodyChar &&
      (match rest.getLast? with
       | some lc => isDomainEdgeChar lc
       | none => false)

/-- An HTTP response of the site-creation handler: status code and the
machine-stable error tag (empty on success). -/
structure CreateResponse where
  status : Nat
  errTag : String
  deriving DecidableEq

/-- config.AddSite: refuses an existing domain, otherwise inserts the site
into the registry; the source persists the updated table to disk before
releasing the write lock, so the persisted copy mirrors the returned
registry. -/
def addSite (reg : List (String × SiteModel)) (domain : String) (site : SiteModel) :
    Option String × List (String × SiteModel) :=
  if reg.any (fun e => e.1 == domain) then (some "site exists", reg)
  else (none, (domain, site) :: reg)

/-- server.SiteCreate: validate the request, generate the per-site key
(the apiKey parameter models config.GenerateAPIKey, none meaning its
random source failed), build the site record; for ssl_enabled requests
deploy the HTTP-only config, invoke the ACME client (the acmeOk outcome
parameter) and on ACME failure remove the HTTP-only config and return
without touching the registry; then add the site to the registry and, for
backend sites, deploy the rendered backend config through
DeploySiteConfigRaw against the registry that now contains the domain.
Returns the response, the final registry and the final nginx tree. -/
def siteCreate (cfg : NgxConfig) (reg : List (String × SiteModel))
    (req : SiteCreateRequest) (apiKey : Option String) (nextIP : String)
    (httpValidator : Bool × String) (httpReloadOk : Bool) (httpOnlyContent : String)
    (acmeOk : Bool) (backendValidator : Bool × String) (backendReloadOk : Bool)
    (backendContent : String) (fs : List (String × NgxNode)) :
    CreateResponse × List (String × SiteModel) × List (String × NgxNode) :=
  if req.domain = "" then (⟨400, "missing_domain"⟩, reg, fs)
  else if !matchesValidDomain req.domain then (⟨400, "invalid_domain"⟩, reg, fs)
  else if (alGet reg req.domain).isSome then (⟨409, "site_exists"⟩, reg, fs)
  else
    match apiKey with
    | none => (⟨500, "key_generation_failed"⟩, reg, fs)
    | some key =>
      let backendOnly := req.withBackend && req.frontendRoot == ""
      let frontendRoot :=
        if !backendOnly && req.frontendRoot == "" then
          goJoin "/var/www" req.domain
        else req.frontendRoot
      let site : SiteModel :=
        { frontendRoot := frontendRoot, apiKey := key, overrideIPs := [],
          sslEnabled := req.sslEnabled,
          backend :=
            if req.withBackend then
              some ({ jailName := req.domain, jailIP := nextIP,
                      listenPort :=
                        (if req.backendPort = 0 then 8080 else req.backendPort),
                      proxyPath :=
                        (if req.proxyPath = "" then "/api" else req.proxyPath),
                      binaryName := req.domain } : BackendModel)
            else none }
      let sslStep :
          Option (CreateResponse × List (String × SiteModel) ×
            List (String × NgxNode)) × List (String × NgxNode) :=
        if req.sslEnabled then
          match deployHTTPOnlyConfig cfg httpValidator httpReloadOk
              httpOnlyContent req.domain fs with
          | (some _, fs1, _) => (some (⟨500, "nginx_setup_failed"⟩, reg, fs1), fs1)
          | (none, fs1, _) =>
            if !acmeOk then
              let r := removeSiteConfigByDomain cfg req.domain fs1
              (some (⟨500, "cert_generation_failed"⟩, reg, r.1), r.1)
            else (none, fs1)
        else (none, fs)
      match sslStep.1 with
      | some earlyReturn => earlyReturn
      | none =>
        let fsAfterSSL := sslStep.2
        match addSite reg req.domain site with
        | (some _, reg1) => (⟨500, "save_failed"⟩, reg1, fsAfterSSL)
        | (none, reg1) =>
          if site.backend.isSome then
            let cfg1 := { cfg with sites := req.domain :: cfg.sites }
            let r := deploySiteConfigRaw cfg1 backendValidator backendReloadOk
              req.domain backendContent fsAfterSSL
            (⟨201, ""⟩, reg1, r.2.1)
          else (⟨201, ""⟩, reg1, fsAfterSSL)

/-! ## Health monitor (health.checkAllServices) -/

/-- health.ServiceStatus without its wall-clock LastCheck field: the
consecutive-failure counter and the healthy flag. -/
structure ServiceStatus where
  consecutiveFailures : Nat
  healthy : Bool
  deriving DecidableEq

/-- One site's update inside health.checkAllServices: a tracked site's
counter resets on a successful probe; a failed probe increments it and,
when the configured threshold is reached, a restart is issued through the
service supervisor and the counter resets; a site seen for the first time
is recorded with a zero counter whatever the probe said.  Returns the new
status and whether a restart was issued. -/
def tickSite (threshold : Nat) (healthy : Bool) (prev : Option ServiceStatus) :
    ServiceStatus × Bool :=
  match prev with
  | some st =>
    if !healthy then
      let f := st.consecutiveFailures + 1
      if threshold ≤ f then (⟨0, false⟩, true)
      else (⟨f, false⟩, false)
    else (⟨0, true⟩, false)
  | none => (⟨0, healthy⟩, false)

/-- health.checkAllServices over the site table: sites without a backend
are skipped; each backend site is probed (the health oracle gives the
probe outcome) and its status entry updated.  Returns the new status map
and the sites restarted during the tick. -/
def checkAllServices (threshold : Nat) (health : String → Bool) :
    List (String × Bool) → List (String × ServiceStatus) →
      List (String × ServiceStatus) × List String
  | [], statusMap => (statusMap, [])
  | (name, hasBackend) :: rest, statusMap =>
    if hasBackend then
      let r := tickSite threshold (health name) (alGet statusMap name)
      let r2 := checkAllServices threshold health rest (alSet statusMap name r.1)
      (r2.1, (if r.2 then [name] else []) ++ r2.2)
    else checkAllServices threshold health rest statusMap

/-- The per-site behavior asserted by the monitoring claim for one tick:
a successful probe resets the counter, a failed probe increments it with a
restart and reset at the threshold, and the counter ends strictly below
the threshold. -/
def monitorTickClaim (threshold : Nat) (healthy : Bool)
    (prev : Option ServiceStatus) : Prop :=
  (healthy = true →
    (tickSite threshold healthy prev).1.consecutiveFailures = 0) ∧
  (healthy = false →
    (((prev.map (·.consecutiveFailures)).getD 0 + 1 < threshold →
      (tickSite threshold healthy prev).1.consecutiveFailures =
        (prev.map (·.consecutiveFailures)).getD 0 + 1 ∧
      (tickSite threshold healthy prev).2 = false) ∧
    (threshold ≤ (prev.map (·.consecutiveFailures)).getD 0 + 1 →
      (tickSite threshold healthy prev).2 = true ∧
      (tickSite threshold healthy prev).1.consecutiveFailures = 0))) ∧
  (tickSite threshold healthy prev).1.consecutiveFailures < threshold

/-! ## Commit-id validation and request authentication (server) -/

/-- A character of the class [0-9a-f] of the commit hash pattern. -/
def isHexLowerChar (c : Char) : Bool :=
  ('0' ≤ c && c ≤ '9') || ('a' ≤ c && c ≤ 'f')

/-- The compiled form of server's anchored commitHashRegex: 7 to 40
characters from [0-9a-f]. -/
def matchesCommitHashRegex (hash : String) : Bool :=
  decide (7 ≤ hash.data.length) && decide (hash.data.length ≤ 40) &&
    hash.data.all isHexLowerChar

/-- server.isValidCommitHash: the literal "latest" or a match of the
commit hash pattern. -/
def isValidCommitHash (hash : String) : Bool :=
  hash == "latest" || matchesCommitHashRegex hash

/-- The specification's commit-id rule, stated in its own words: the
literal "latest" or a string of 7 to 40 lowercase hexadecimal
characters. -/
def specCommitIdOk (hash : String) : Prop :=
  hash = "latest" ∨ (7 ≤ hash.data.length ∧ hash.data.length ≤ 40 ∧
    ∀ c ∈ hash.data, c ∈ ("0123456789abcdef" : String).data)

/-- The outcome of a request-validation step of a deploy handler. -/
inductive DeployCheck where
  | badRequest (tag : String)
  | notFound (tag : String)
  | proceed
  deriving DecidableEq

/-- The request-validation pipeline of server.DeployFrontend up to and
including the commit-id check: field presence, site lookup, backend-only
rejection, then commit-id validation; the steps past the commit check are
beyond the claims below and are represented by the proceed outcome. -/
def deployFrontendCheck (reg : List (String × SiteModel))
    (siteField commitField : Option String) : DeployCheck :=
  match siteField, commitField with
  | some siteName, some commitHash =>
    (match alGet reg siteName with
     | none => .notFound "site_not_found"
     | some site =>
       if site.isBackendOnly then .badRequest "backend_only_site"
       else if !isValidCommitHash commitHash then .badRequest "invalid_commit_hash"
       else .proceed)
  | _, _ => .badRequest "missing_fields"

/-- The outcome of the SiteAuth middleware. -/
inductive AuthResult where
  | badRequest (tag : String)
  | notFound (tag : String)
  | unauthorized (tag : String)
  | next
  deriving DecidableEq

/-- server.SiteAuth: parse the multipart form, read the site field, look
the site up — an unknown site is answered 404 before any credential is
read — then require the X-Shipyard-Key header (the empty string models a
missing header, as in the source) and compare it against the site's api
key and then every admin key; the source compares in constant time, which
is modelled as plain equality. -/
def siteAuth (reg : List (String × SiteModel)) (adminKeys : List String)
    (formParsed : Bool) (siteField : Option String) (key : String) : AuthResult :=
  if !formParsed then .badRequest "invalid_request"
  else
    match siteField with
    | none => .badRequest "missing_site"
    | some siteName =>
      match alGet reg siteName with
      | none => .notFound "site_not_found"
      | some site =>
        if key = "" then .unauthorized "missing_auth"
        else if key = site.apiKey then .next
        else if adminKeys.contains key then .next
        else .unauthorized "invalid_key"

/-- A normal path segment: nonempty, not ".", not "..", and containing no
separator.  All segments of a cleaned path are normal, except the leading
".." segments of a relative path. -/
def segOK (g : List Char) : Prop :=
  g ≠ [] ∧ g ≠ ['.'] ∧ g ≠ ['.', '.'] ∧ '/' ∉ g

instance (g : List Char) : Decidable (segOK g) := by
  unfold segOK
  infer_instance

/-- The stack shape maintained by cleanLoop on a relative path: normal
segments on top of the ".." segments that escaped to the left. -/
def stackOK (s : List (List Char)) : Prop :=
  ∃ n d, s = n ++ List.replicate d ['.', '.'] ∧ ∀ g ∈ n, segOK g

/-- The configurator property asserted by the invariant claim: in every
operation, including the HTTP-only ACME bootstrap, whole-tree validation
runs before any enabled-symlink creation or replacement. -/
def configuratorValidatesFirst : Prop :=
  (∀ (cfg : NgxConfig) (validator : Bool × String) (reloadOk : Bool)
      (site content : String) (fs : List (String × NgxNode)),
    symlinkOnlyAfterValidate
      (deploySiteConfigRaw cfg validator reloadOk site content fs).2.2 = true) ∧
  (∀ (cfg : NgxConfig) (validator : Bool × String) (reloadOk : Bool)
      (httpContent domain : String) (fs : List (String × NgxNode)),
    symlinkOnlyAfterValidate
      (deployHTTPOnlyConfig cfg validator reloadOk httpContent domain fs).2.2 = true)

instance (threshold : Nat) (healthy : Bool) (prev : Option ServiceStatus) :
    Decidable (monitorTickClaim threshold healthy prev) := by
  unfold monitorTickClaim
  infer_instance

instance (hash : String) : Decidable (specCommitIdOk hash) := by
  unfold specCommitIdOk
  infer_instance

/-! ## Path lemmas -/

theorem splitStep_ne_nil (c : Char) (r : List (List Char)) : splitStep c r ≠ [] := by
  unfold splitStep
  split
  · simp
  · match r with
    | [] => simp
    | g :: gs => simp

theorem splitSlash_ne_nil (l : List Char) : splitSlash l ≠ [] := by
  induction l with
  | nil => simp [splitSlash]
  | cons c rest ih => exact splitStep_ne_nil c _

theorem foldr_splitStep_cons (l : List Char) (g : List Char) (gs : List (List Char)) :
    l.foldr splitStep (g :: gs) = l.foldr splitStep [g] ++ gs := by
  induction l with
  | nil => simp
  | cons c rest ih =>
    simp only [List.foldr_cons, ih]
    have hne : rest.foldr splitStep [g] ≠ [] := by
      induction rest with
      | nil => simp
      | cons d t iht => exact splitStep_ne_nil d _
    obtain ⟨h, t, hht⟩ := List.exists_cons_of_ne_nil hne
    rw [hht]
    unfold splitStep
    split
    · simp
    · simp

theorem splitSlash_append (xs ys : List Char) :
    splitSlash (xs ++ '/' :: ys) = splitSlash xs ++ splitSlash ys := by
  unfold splitSlash
  rw [List.foldr_append, List.foldr_cons]
  show xs.foldr splitStep (splitStep '/' (ys.foldr splitStep [[]])) = _
  have : splitStep '/' (ys.foldr splitStep [[]]) = [] :: ys.foldr splitStep [[]] := by
    unfold splitStep; simp
  rw [this, foldr_splitStep_cons]

theorem joinSlash_cons_cons (c : Char) (g : List Char) (gs : List (List Char)) :
    joinSlash ((c :: g) :: gs) = c :: joinSlash (g :: gs) := by
  cases gs <;> simp [joinSlash]

theorem joinSlash_splitSlash (l : List Char) : joinSlash (splitSlash l) = l := by
  induction l with
  | nil => simp [splitSlash, joinSlash]
  | cons c rest ih =>
    show joinSlash (splitStep c (splitSlash rest)) = c :: rest
    obtain ⟨g, gs, hgs⟩ := List.exists_cons_of_ne_nil (splitSlash_ne_nil rest)
    unfold splitStep
    split
    · next hc =>
      subst hc
      rw [hgs]
      rw [hgs] at ih
      show joinSlash ([] :: g :: gs) = '/' :: rest
      simp [joinSlash, ih]
    · next hc =>
      rw [hgs]
      rw [hgs] at ih
      rw [joinSlash_cons_cons, ih]

theorem joinSlash_cons_of_ne_nil (g : List Char) (gs : List (List Char)) (h : gs ≠ []) :
    joinSlash (g :: gs) = g ++ '/' :: joinSlash gs := by
  obtain ⟨a, t, rfl⟩ := List.exists_cons_of_ne_nil h
  rfl

theorem joinSlash_append (X Y : List (List Char)) (hx : X ≠ []) (hy : Y ≠ []) :
    joinSlash (X ++ Y) = joinSlash X ++ '/' :: joinSlash Y := by
  induction X with
  | nil => exact absurd rfl hx
  | cons g X' ih =>
    cases X' with
    | nil =>
      rw [List.singleton_append, joinSlash_cons_of_ne_nil g Y hy]
      rfl
    | cons g' X'' =>
      rw [List.cons_append, joinSlash_cons_of_ne_nil g _ (by simp),
        joinSlash_cons_of_ne_nil g (g' :: X'') (by simp), ih (by simp)]
      simp

theorem splitStep_of_slash (r : List (List Char)) : splitStep '/' r = [] :: r := by
  unfold splitStep; simp

theorem splitStep_of_ne_slash (c : Char) (hc : c ≠ '/') (h : List Char)
    (t : List (List Char)) : splitStep c (h :: t) = (c :: h) :: t := by
  unfold splitStep; simp [hc]

theorem mem_splitSlash_no_slash (l : List Char) :
    ∀ g ∈ splitSlash l, '/' ∉ g := by
  induction l with
  | nil =>
    intro g hg
    simp [splitSlash] at hg
    simp [hg]
  | cons c rest ih =>
    intro g hg
    have hstep : splitSlash (c :: rest) = splitStep c (splitSlash rest) := rfl
    rw [hstep] at hg
    obtain ⟨h, t, hht⟩ := List.exists_cons_of_ne_nil (splitSlash_ne_nil rest)
    by_cases hc : c = '/'
    · subst hc
      rw [splitStep_of_slash] at hg
      rcases List.mem_cons.mp hg with hg1 | hg1
      · simp [hg1]
      · exact ih g hg1
    · rw [hht, splitStep_of_ne_slash c hc h t] at hg
      rcases List.mem_cons.mp hg with hg1 | hg1
      · subst hg1
        intro hmem
        rcases List.mem_cons.mp hmem with h1 | h1
        · exact hc h1.symm
        · exact ih h (hht ▸ List.mem_cons_self h t) h1
      · exact ih g (hht ▸ List.mem_cons_of_mem h hg1)

theorem splitSlash_no_slash (g : List Char) (h : '/' ∉ g) : splitSlash g = [g] := by
  induction g with
  | nil => rfl
  | cons c rest ih =>
    have hc : c ≠ '/' := fun hc => h (hc ▸ List.mem_cons_self c rest)
    have hrest : '/' ∉ rest := fun hr => h (List.mem_cons_of_mem c hr)
    show splitStep c (splitSlash rest) = [c :: rest]
    rw [ih hrest]
    unfold splitStep
    simp [hc]

theorem splitSlash_joinSlash (G : List (List Char)) (hne : G ≠ [])
    (hsl : ∀ g ∈ G, '/' ∉ g) : splitSlash (joinSlash G) = G := by
  induction G with
  | nil => exact absurd rfl hne
  | cons g G' ih =>
    cases G' with
    | nil => exact splitSlash_no_slash g (hsl g (List.mem_cons_self g []))
    | cons g' G'' =>
      have hjoin : joinSlash (g :: g' :: G'') = g ++ '/' :: joinSlash (g' :: G'') := rfl
      rw [hjoin, splitSlash_append, splitSlash_no_slash g (hsl g (by simp)),
        ih (by simp) (fun x hx => hsl x (List.mem_cons_of_mem g hx))]
      rfl

theorem cleanLoop_cons (r : Bool) (s : List (List Char)) (e : List Char)
    (rest : List (List Char)) :
    cleanLoop r s (e :: rest) =
      if e = [] ∨ e = ['.'] then cleanLoop r s rest
      else if e = ['.', '.'] then
        match s with
        | [] => if r then cleanLoop r [] rest else cleanLoop r [['.', '.']] rest
        | top :: others =>
          if top = ['.', '.'] then cleanLoop r (['.', '.'] :: (top :: others)) rest
          else cleanLoop r others rest
      else cleanLoop r (e :: s) rest := rfl

theorem cleanLoop_skip (r : Bool) (s : List (List Char)) (e : List Char)
    (rest : List (List Char)) (h1 : e = [] ∨ e = ['.']) :
    cleanLoop r s (e :: rest) = cleanLoop r s rest := by
  rw [cleanLoop_cons, if_pos h1]

theorem cleanLoop_push (r : Bool) (s : List (List Char)) (e : List Char)
    (rest : List (List Char)) (h1 : ¬(e = [] ∨ e = ['.'])) (h2 : e ≠ ['.', '.']) :
    cleanLoop r s (e :: rest) = cleanLoop r (e :: s) rest := by
  rw [cleanLoop_cons, if_neg h1, if_neg h2]

theorem cleanLoop_dotdot_nil (r : Bool) (rest : List (List Char)) :
    cleanLoop r [] (['.', '.'] :: rest) =
      if r then cleanLoop r [] rest else cleanLoop r [['.', '.']] rest := by
  rw [cleanLoop_cons, if_neg (by simp), if_pos rfl]

theorem cleanLoop_dotdot_pop (r : Bool) (top : List Char) (others : List (List Char))
    (rest : List (List Char)) (ht : top ≠ ['.', '.']) :
    cleanLoop r (top :: others) (['.', '.'] :: rest) = cleanLoop r others rest := by
  rw [cleanLoop_cons, if_neg (by simp), if_pos rfl]
  simp [ht]

theorem cleanLoop_dotdot_keep (r : Bool) (others : List (List Char))
    (rest : List (List Char)) :
    cleanLoop r (['.', '.'] :: others) (['.', '.'] :: rest) =
      cleanLoop r (['.', '.'] :: ['.', '.'] :: others) rest := by
  rw [cleanLoop_cons, if_neg (by simp), if_pos rfl]
  simp

theorem cleanLoop_append (r : Bool) (xs ys : List (List Char)) :
    ∀ s, cleanLoop r s (xs ++ ys) = cleanLoop r (cleanLoop r s xs) ys := by
  induction xs with
  | nil => intro s; rfl
  | cons e rest ih =>
    intro s
    rw [List.cons_append]
    by_cases h1 : e = [] ∨ e = ['.']
    · rw [cleanLoop_skip r s e _ h1, cleanLoop_skip r s e _ h1, ih s]
    · by_cases h2 : e = ['.', '.']
      · subst h2
        cases s with
        | nil =>
          cases r with
          | true =>
            rw [cleanLoop_dotdot_nil, cleanLoop_dotdot_nil, if_pos rfl, if_pos rfl, ih []]
          | false =>
            rw [cleanLoop_dotdot_nil, cleanLoop_dotdot_nil, if_neg (by simp),
              if_neg (by simp), ih [['.', '.']]]
        | cons top others =>
          by_cases ht : top = ['.', '.']
          · subst ht
            rw [cleanLoop_dotdot_keep, cleanLoop_dotdot_keep, ih _]
          · rw [cleanLoop_dotdot_pop r top others _ ht,
              cleanLoop_dotdot_pop r top others _ ht, ih others]
      · rw [cleanLoop_push r s e _ h1 h2, cleanLoop_push r s e _ h1 h2, ih (e :: s)]

theorem cleanLoop_all_push (r : Bool) (l : List (List Char))
    (hl : ∀ e ∈ l, segOK e) : ∀ s, cleanLoop r s l = l.reverse ++ s := by
  induction l with
  | nil => intro s; rfl
  | cons e rest ih =>
    intro s
    obtain ⟨he1, he2, he3, -⟩ := hl e (List.mem_cons_self e rest)
    rw [cleanLoop_push r s e _ (by simp [he1, he2]) he3,
      ih (fun x hx => hl x (List.mem_cons_of_mem e hx)) (e :: s)]
    simp

theorem cleanLoop_rooted_segOK (l : List (List Char)) (hl : ∀ g ∈ l, '/' ∉ g) :
    ∀ s, (∀ g ∈ s, segOK g) → ∀ g ∈ cleanLoop true s l, segOK g := by
  induction l with
  | nil => intro s hs; exact hs
  | cons e rest ih =>
    intro s hs
    have hrest : ∀ g ∈ rest, '/' ∉ g := fun g hg => hl g (List.mem_cons_of_mem e hg)
    by_cases h1 : e = [] ∨ e = ['.']
    · rw [cleanLoop_skip true s e _ h1]
      exact ih hrest s hs
    · by_cases h2 : e = ['.', '.']
      · subst h2
        cases s with
        | nil =>
          rw [cleanLoop_dotdot_nil, if_pos rfl]
          exact ih hrest [] (by simp)
        | cons top others =>
          have htop : top ≠ ['.', '.'] := (hs top (List.mem_cons_self top others)).2.2.1
          rw [cleanLoop_dotdot_pop true top others _ htop]
          exact ih hrest others (fun g hg => hs g (List.mem_cons_of_mem top hg))
      · rw [cleanLoop_push true s e _ h1 h2]
        refine ih hrest (e :: s) ?_
        intro g hg
        rcases List.mem_cons.mp hg with hg1 | hg1
        · subst hg1
          exact ⟨fun h => h1 (Or.inl h), fun h => h1 (Or.inr h), h2,
            hl g (List.mem_cons_self _ _)⟩
        · exact hs g hg1

theorem cleanLoop_relative_stackOK (l : List (List Char)) (hl : ∀ g ∈ l, '/' ∉ g) :
    ∀ s, stackOK s → stackOK (cleanLoop false s l) := by
  induction l with
  | nil => intro s hs; exact hs
  | cons e rest ih =>
    intro s hs
    have hrest : ∀ g ∈ rest, '/' ∉ g := fun g hg => hl g (List.mem_cons_of_mem e hg)
    obtain ⟨n, d, hnd, hn⟩ := hs
    by_cases h1 : e = [] ∨ e = ['.']
    · rw [cleanLoop_skip false s e _ h1]
      exact ih hrest s ⟨n, d, hnd, hn⟩
    · by_cases h2 : e = ['.', '.']
      · subst h2
        cases hcs : s with
        | nil =>
          rw [cleanLoop_dotdot_nil, if_neg (by simp)]
          exact ih hrest _ ⟨[], 1, rfl, by simp⟩
        | cons top others =>
          subst hcs
          by_cases htop : top = ['.', '.']
          · subst htop
            have hnnil : n = [] := by
              cases hcn : n with
              | nil => rfl
              | cons n0 ntl =>
                exfalso
                rw [hcn, List.cons_append] at hnd
                have h0 : n0 = ['.', '.'] := ((List.cons.injEq ..).mp hnd).1.symm
                exact (hn n0 (hcn ▸ List.mem_cons_self n0 ntl)).2.2.1 h0
            rw [hnnil, List.nil_append] at hnd
            rw [cleanLoop_dotdot_keep]
            refine ih hrest _ ⟨[], d + 1, ?_, by simp⟩
            rw [List.replicate_succ, ← hnd]
            simp
          · have hnne : n ≠ [] := by
              intro hcn
              rw [hcn, List.nil_append] at hnd
              cases d with
              | zero => simp at hnd
              | succ d' =>
                rw [List.replicate_succ] at hnd
                exact htop ((List.cons.injEq ..).mp hnd).1
            obtain ⟨n0, ntl, rfl⟩ := List.exists_cons_of_ne_nil hnne
            rw [List.cons_append] at hnd
            have hoth : others = ntl ++ List.replicate d ['.', '.'] :=
              ((List.cons.injEq ..).mp hnd).2
            rw [cleanLoop_dotdot_pop false top others _ htop]
            exact ih hrest others ⟨ntl, d, hoth,
              fun g hg => hn g (List.mem_cons_of_mem n0 hg)⟩
      · rw [cleanLoop_push false s e _ h1 h2]
        refine ih hrest (e :: s) ⟨e :: n, d, by rw [hnd]; rfl, ?_⟩
        intro g hg
        rcases List.mem_cons.mp hg with hg1 | hg1
        · subst hg1
          exact ⟨fun h => h1 (Or.inl h), fun h => h1 (Or.inr h), h2,
            hl g (List.mem_cons_self _ _)⟩
        · exact hn g hg1

theorem joinSlash_prefix (g : List Char) (gs : List (List Char)) :
    g <+: joinSlash (g :: gs) := by
  cases gs with
  | nil => exact List.prefix_refl g
  | cons h t => exact ⟨'/' :: joinSlash (h :: t), rfl⟩

theorem cleanCore_rooted (l : List Char) (hl : l.head? = some '/') :
    cleanCore l = '/' :: joinSlash (cleanLoop true [] (splitSlash l)).reverse := by
  have hne : l ≠ [] := by intro h; rw [h] at hl; simp at hl
  unfold cleanCore
  rw [if_neg hne, if_pos hl]

theorem cleanCore_not_rooted (l : List Char) (hl : l.head? ≠ some '/') :
    cleanCore l =
      if cleanLoop false [] (splitSlash l) = [] then ['.']
      else joinSlash (cleanLoop false [] (splitSlash l)).reverse := by
  by_cases hne : l = []
  · subst hne
    rfl
  · unfold cleanCore
    rw [if_neg hne, if_neg hl]

theorem goIsAbs_of_rooted (s : String) (h : s.data.head? = some '/') :
    goIsAbs (goClean s) = true := by
  unfold goIsAbs goStartsWith goClean
  rw [show (⟨cleanCore s.data⟩ : String).data = cleanCore s.data from rfl,
    cleanCore_rooted s.data h]
  simp [List.isPrefixOf]

theorem not_rooted_of_goIsAbs_goClean (s : String)
    (h : goIsAbs (goClean s) = false) : s.data.head? ≠ some '/' := by
  intro hr
  rw [goIsAbs_of_rooted s hr] at h
  exact absurd h (by simp)

/-- Structure of a cleaned relative path that does not begin with "..":
it is "." or a nonempty join of normal segments. -/
theorem goClean_rel_structure (s : String)
    (hroot : s.data.head? ≠ some '/')
    (hpre : goStartsWith (goClean s) ".." = false) :
    goClean s = "." ∨
      ∃ S : List (List Char), S ≠ [] ∧ (∀ g ∈ S, segOK g) ∧
        (goClean s).data = joinSlash S.reverse ∧
        splitSlash (goClean s).data = S.reverse := by
  have hdata : (goClean s).data = cleanCore s.data := rfl
  have hcc := cleanCore_not_rooted s.data hroot
  set S := cleanLoop false [] (splitSlash s.data) with hS
  have hsok : stackOK S :=
    cleanLoop_relative_stackOK (splitSlash s.data)
      (mem_splitSlash_no_slash s.data) [] ⟨[], 0, by simp, by simp⟩
  by_cases hnil : S = []
  · left
    rw [if_pos hnil] at hcc
    show (⟨cleanCore s.data⟩ : String) = "."
    rw [hcc]
  · obtain ⟨n, d, hnd, hn⟩ := hsok
    rw [if_neg hnil] at hcc
    have hd0 : d = 0 := by
      by_contra hd
      obtain ⟨d', rfl⟩ : ∃ d', d = d' + 1 := ⟨d - 1, (Nat.succ_pred_eq_of_pos (Nat.pos_of_ne_zero hd)).symm⟩
      have hrev : S.reverse = ['.', '.'] :: (List.replicate d' ['.', '.'] ++ n.reverse) := by
        rw [hnd, List.reverse_append, List.reverse_replicate, List.replicate_succ]
        simp
      have hprefix : ['.', '.'] <+: (goClean s).data := by
        rw [hdata, hcc, hrev]
        exact joinSlash_prefix _ _
      rw [show goStartsWith (goClean s) ".." =
        (['.', '.'] : List Char).isPrefixOf (goClean s).data from rfl] at hpre
      rw [List.isPrefixOf_iff_prefix.mpr hprefix] at hpre
      exact absurd hpre (by simp)
    right
    subst hd0
    rw [List.replicate_zero, List.append_nil] at hnd
    refine ⟨S, hnil, ?_, by rw [hdata, hcc], ?_⟩
    · intro g hg
      exact hn g (hnd ▸ hg)
    · rw [hdata, hcc]
      refine splitSlash_joinSlash S.reverse (by simpa using hnil) ?_
      intro g hg
      exact (hn g (hnd ▸ List.mem_reverse.mp hg)).2.2.2

/-- Joining a checked clean entry path onto a clean absolute target
directory appends it under the directory (or returns the directory itself
for the entry "."). -/
theorem goJoin_goClean_cases (td name : String)
    (h1 : goClean td = td) (h2 : goIsAbs td = true) (h3 : td ≠ "/")
    (h4 : goStartsWith (goClean name) ".." = false)
    (h5 : goIsAbs (goClean name) = false) :
    goJoin td (goClean name) = td ∨
      (goJoin td (goClean name)).data = td.data ++ '/' :: (goClean name).data := by
  have htd_head : td.data.head? = some '/' := by
    unfold goIsAbs goStartsWith at h2
    have : (("/" : String).data).isPrefixOf td.data = true := h2
    rw [List.isPrefixOf_iff_prefix] at this
    obtain ⟨t, ht⟩ := this
    rw [show ("/" : String).data = ['/'] from rfl] at ht
    rw [← ht]
    rfl
  have htd_ne : td ≠ "" := by
    intro h
    rw [h] at htd_head
    simp at htd_head
  have hjoin : goJoin td (goClean name) = ⟨cleanCore (td.data ++ '/' :: (goClean name).data)⟩ := by
    unfold goJoin
    rw [if_neg htd_ne]
    rfl
  have hLhead : (td.data ++ '/' :: (goClean name).data).head? = some '/' := by
    cases hc : td.data with
    | nil => rw [hc] at htd_head; simp at htd_head
    | cons a t =>
      rw [hc] at htd_head
      simp at htd_head
      simp [hc, htd_head]
  set St := cleanLoop true [] (splitSlash td.data) with hSt
  have htd_data : td.data = '/' :: joinSlash St.reverse := by
    conv_lhs => rw [show td = goClean td from h1.symm]
    rw [show (goClean td).data = cleanCore td.data from rfl, cleanCore_rooted td.data htd_head]
  have hStOK : ∀ g ∈ St, segOK g :=
    cleanLoop_rooted_segOK (splitSlash td.data) (mem_splitSlash_no_slash td.data) []
      (by simp)
  have hsplitL : splitSlash (td.data ++ '/' :: (goClean name).data) =
      splitSlash td.data ++ splitSlash (goClean name).data := splitSlash_append _ _
  have hloopL : cleanLoop true [] (splitSlash td.data ++ splitSlash (goClean name).data) =
      cleanLoop true St (splitSlash (goClean name).data) := by
    rw [cleanLoop_append]
  have hcc : cleanCore (td.data ++ '/' :: (goClean name).data) =
      '/' :: joinSlash (cleanLoop true St (splitSlash (goClean name).data)).reverse := by
    rw [cleanCore_rooted _ hLhead, hsplitL, hloopL]
  have hroot : name.data.head? ≠ some '/' := not_rooted_of_goIsAbs_goClean name h5
  rcases goClean_rel_structure name hroot h4 with hdot | ⟨S, hSne, hSok, hSdata, hSsplit⟩
  · left
    rw [hjoin, hcc, hdot]
    rw [show ("." : String).data = ['.'] from rfl]
    have : splitSlash ['.'] = [['.']] := rfl
    rw [this, cleanLoop_skip true St ['.'] [] (Or.inr rfl)]
    show (⟨'/' :: joinSlash St.reverse⟩ : String) = td
    rw [← htd_data]
  · right
    rw [hjoin, hcc, hSsplit]
    have hpush : cleanLoop true St S.reverse = S.reverse.reverse ++ St :=
      cleanLoop_all_push true S.reverse (fun e he => hSok e (List.mem_reverse.mp he)) St
    rw [hpush]
    have hStrev_ne : St.reverse ≠ [] := by
      intro h
      have hSt_nil : St = [] := by simpa using h
      rw [hSt_nil] at htd_data
      exact h3 (by
        apply String.ext
        rw [htd_data]
        rfl)
    have hrev : (S.reverse.reverse ++ St).reverse = St.reverse ++ S.reverse := by
      simp
    rw [hrev, joinSlash_append St.reverse S.reverse hStrev_ne (by simpa using hSne),
      ← hSdata, htd_data]
    rfl

theorem goJoin_goClean_isWithin (td name : String)
    (h1 : goClean td = td) (h2 : goIsAbs td = true) (h3 : td ≠ "/")
    (h4 : goStartsWith (goClean name) ".." = false)
    (h5 : goIsAbs (goClean name) = false) :
    isWithin td (goJoin td (goClean name)) = true := by
  rcases goJoin_goClean_cases td name h1 h2 h3 h4 h5 with hca | hca
  · unfold isWithin
    rw [hca]
    simp
  · unfold isWithin
    apply Bool.or_eq_true_iff.mpr
    right
    rw [List.isPrefixOf_iff_prefix, hca]
    exact ⟨(goClean name).data, by simp⟩

/-! ## Extraction lemmas -/

theorem goStartsWith_append (a b : String) : goStartsWith (a ++ b) a = true := by
  unfold goStartsWith
  rw [String.data_append, List.isPrefixOf_iff_prefix]
  exact List.prefix_append a.data b.data

theorem extractZipEntry_eq (targetDir : String) (f : ZipEntry) :
    extractZipEntry targetDir f =
      if goStartsWith (goClean f.name) ".." || goIsAbs (goClean f.name) then
        .error ("zip slip detected: " ++ f.name)
      else
        match goRel targetDir (goJoin targetDir (goClean f.name)) with
        | .error _ => .error ("zip slip detected: " ++ f.name)
        | .ok rel =>
          if goStartsWith rel ".." then .error ("zip slip detected: " ++ f.name)
          else if f.isDir then .ok [.mkdirAll (goJoin targetDir (goClean f.name))]
          else .ok [.mkdirAll (goDir (goJoin targetDir (goClean f.name))),
            .createFile (goJoin targetDir (goClean f.name)) f.name] := rfl

theorem extractZip_cons (targetDir : String) (f : ZipEntry) (rest : List ZipEntry) :
    extractZip targetDir (f :: rest) =
      match extractZipEntry targetDir f with
      | .error e => (some e, [])
      | .ok w => ((extractZip targetDir rest).1, w ++ (extractZip targetDir rest).2) := rfl

theorem extractZipEntry_error_of_checks (targetDir : String) (f : ZipEntry)
    (h : (goStartsWith (goClean f.name) ".." || goIsAbs (goClean f.name)) = true) :
    extractZipEntry targetDir f = .error ("zip slip detected: " ++ f.name) := by
  rw [extractZipEntry_eq, if_pos h]

theorem extractZipEntry_ok_checks (targetDir : String) (f : ZipEntry) (ws : List FsWrite)
    (h : extractZipEntry targetDir f = .ok ws) :
    goStartsWith (goClean f.name) ".." = false ∧ goIsAbs (goClean f.name) = false := by
  cases hc : (goStartsWith (goClean f.name) ".." || goIsAbs (goClean f.name)) with
  | true =>
    rw [extractZipEntry_error_of_checks targetDir f hc] at h
    exact absurd h (by simp)
  | false =>
    exact Bool.or_eq_false_iff.mp hc

theorem extractZipEntry_error_msg (targetDir : String) (f : ZipEntry) (e : String)
    (h : extractZipEntry targetDir f = .error e) :
    e = "zip slip detected: " ++ f.name := by
  rw [extractZipEntry_eq] at h
  by_cases hc : (goStartsWith (goClean f.name) ".." || goIsAbs (goClean f.name)) = true
  · rw [if_pos hc] at h
    exact (Except.error.inj h).symm
  · rw [if_neg hc] at h
    cases hx : goRel targetDir (goJoin targetDir (goClean f.name)) with
    | error a =>
      rw [hx] at h
      dsimp only at h
      exact (Except.error.inj h).symm
    | ok rel =>
      rw [hx] at h
      dsimp only at h
      by_cases hr : goStartsWith rel ".." = true
      · rw [if_pos hr] at h
        exact (Except.error.inj h).symm
      · rw [if_neg hr] at h
        by_cases hd : f.isDir = true <;> simp [hd] at h

theorem extractZipEntry_ok_createFile_within (targetDir : String) (f : ZipEntry)
    (ws : List FsWrite) (h1 : goClean targetDir = targetDir)
    (h2 : goIsAbs targetDir = true) (h3 : targetDir ≠ "/")
    (hok : extractZipEntry targetDir f = .ok ws) :
    ∀ p nm, FsWrite.createFile p nm ∈ ws → isWithin targetDir p = true := by
  obtain ⟨hpre, habs⟩ := extractZipEntry_ok_checks targetDir f ws hok
  have hwithin := goJoin_goClean_isWithin targetDir f.name h1 h2 h3 hpre habs
  intro p nm hp
  rw [extractZipEntry_eq, if_neg (by simp [hpre, habs])] at hok
  cases hx : goRel targetDir (goJoin targetDir (goClean f.name)) with
  | error a =>
    rw [hx] at hok
    dsimp only at hok
    exact absurd hok (by simp)
  | ok rel =>
    rw [hx] at hok
    dsimp only at hok
    by_cases hr : goStartsWith rel ".." = true
    · rw [if_pos hr] at hok
      exact absurd hok (by simp)
    · rw [if_neg hr] at hok
      by_cases hd : f.isDir = true
      · rw [if_pos hd] at hok
        have hws : ws = [.mkdirAll (goJoin targetDir (goClean f.name))] :=
          (Except.ok.inj hok).symm
        rw [hws] at hp
        simp at hp
      · rw [if_neg hd] at hok
        have hws : ws = [.mkdirAll (goDir (goJoin targetDir (goClean f.name))),
            .createFile (goJoin targetDir (goClean f.name)) f.name] :=
          (Except.ok.inj hok).symm
        rw [hws] at hp
        rcases List.mem_cons.mp hp with hc | hc
        · exact absurd hc (by simp)
        · have hpfull : p = goJoin targetDir (goClean f.name) := by
            simp at hc
            exact hc.1
          rw [hpfull]
          exact hwithin

theorem extractZip_error_shape (targetDir : String) (entries : List ZipEntry)
    (msg : String) (h : (extractZip targetDir entries).1 = some msg) :
    goStartsWith msg "zip slip detected: " = true := by
  induction entries with
  | nil => simp [extractZip] at h
  | cons f rest ih =>
    rw [extractZip_cons] at h
    cases hx : extractZipEntry targetDir f with
    | error e =>
      rw [hx] at h
      simp at h
      rw [← h, extractZipEntry_error_msg targetDir f e hx]
      exact goStartsWith_append "zip slip detected: " f.name
    | ok w =>
      rw [hx] at h
      simp at h
      exact ih h

theorem extractZip_createFile_within (targetDir : String) (entries : List ZipEntry)
    (h1 : goClean targetDir = targetDir) (h2 : goIsAbs targetDir = true)
    (h3 : targetDir ≠ "/") :
    ∀ p nm, FsWrite.createFile p nm ∈ (extractZip targetDir entries).2 →
      isWithin targetDir p = true := by
  induction entries with
  | nil => simp [extractZip]
  | cons f rest ih =>
    intro p nm hp
    rw [extractZip_cons] at hp
    cases hx : extractZipEntry targetDir f with
    | error e =>
      rw [hx] at hp
      simp at hp
    | ok w =>
      rw [hx] at hp
      simp only at hp
      rcases List.mem_append.mp hp with hmem | hmem
      · exact extractZipEntry_ok_createFile_within targetDir f w h1 h2 h3 hx p nm hmem
      · exact ih p nm hmem

theorem extractZipEntry_bad_error (targetDir : String) (f : ZipEntry)
    (h1 : goClean targetDir = targetDir) (h2 : goIsAbs targetDir = true)
    (h3 : targetDir ≠ "/")
    (hbad : goIsAbs (goClean f.name) = true ∨ goStartsWith (goClean f.name) ".." = true ∨
      isWithin targetDir (goJoin targetDir (goClean f.name)) = false) :
    extractZipEntry targetDir f = .error ("zip slip detected: " ++ f.name) := by
  cases hc : (goStartsWith (goClean f.name) ".." || goIsAbs (goClean f.name)) with
  | true => exact extractZipEntry_error_of_checks targetDir f hc
  | false =>
    exfalso
    obtain ⟨hpre, habs⟩ := Bool.or_eq_false_iff.mp hc
    rcases hbad with hb | hb | hb
    · rw [habs] at hb; exact absurd hb (by simp)
    · rw [hpre] at hb; exact absurd hb (by simp)
    · rw [goJoin_goClean_isWithin targetDir f.name h1 h2 h3 hpre habs] at hb
      exact absurd hb (by simp)

theorem extractZip_fails_of_bad (targetDir : String) (entries : List ZipEntry)
    (f : ZipEntry) (h1 : goClean targetDir = targetDir) (h2 : goIsAbs targetDir = true)
    (h3 : targetDir ≠ "/") (hf : f ∈ entries)
    (hbad : goIsAbs (goClean f.name) = true ∨ goStartsWith (goClean f.name) ".." = true ∨
      isWithin targetDir (goJoin targetDir (goClean f.name)) = false) :
    ∃ msg, (extractZip targetDir entries).1 = some msg := by
  induction entries with
  | nil => simp at hf
  | cons g rest ih =>
    rw [extractZip_cons]
    cases hx : extractZipEntry targetDir g with
    | error e => exact ⟨e, rfl⟩
    | ok w =>
      rcases List.mem_cons.mp hf with hfg | hfr
      · exfalso
        rw [← hfg] at hx
        rw [extractZipEntry_bad_error targetDir f h1 h2 h3 hbad] at hx
        exact absurd hx (by simp)
      · obtain ⟨msg, hmsg⟩ := ih hfr
        exact ⟨msg, hmsg⟩

/-! ## Self-updater lemmas and claims C3, C4 -/

theorem update_success_state {α : Type} (valid : α → Bool) (data : α)
    (st st1 : BinState α) (f : BinFile α) (hp : st.p = some f)
    (hu : update valid data st = (none, st1)) :
    st1 = ⟨some ⟨data, true⟩, none, some f⟩ := by
  cases hv : valid data with
  | false =>
    exfalso
    unfold update writeNewBinary validateBinary at hu
    simp [hv] at hu
  | true =>
    unfold update writeNewBinary validateBinary atomicReplace at hu
    simp [hv, hp] at hu
    exact hu.symm

/-- C3: a successful self-update followed by a successful rollback leaves
the binary path holding the pre-update bytes, and the P.new file left over
from the rollback is deleted. -/
theorem C3_update_then_rollback {α : Type} (valid : α → Bool) (data : α)
    (st st1 st2 : BinState α) (f : BinFile α) (hp : st.p = some f)
    (hu : update valid data st = (none, st1))
    (hr : rollback st1 = (none, st2)) :
    st2.p = some f ∧ st2.pnew = none := by
  have h1 := update_success_state valid data st st1 f hp hu
  subst h1
  unfold rollback at hr
  simp at hr
  rw [← hr]
  exact ⟨rfl, rfl⟩

/-- Witness for C3 with byte type Nat: install 5, update to 7, roll
back. -/
theorem C3_update_then_rollback_witness :
    (⟨some ⟨5, true⟩, none, none⟩ : BinState Nat).p = some ⟨5, true⟩ ∧
    update (fun n => n == 7) 7 ⟨some ⟨5, true⟩, none, none⟩ =
      (none, ⟨some ⟨7, true⟩, none, some ⟨5, true⟩⟩) ∧
    rollback (⟨some ⟨7, true⟩, none, some ⟨5, true⟩⟩ : BinState Nat) =
      (none, ⟨some ⟨5, true⟩, none, none⟩) ∧
    ((⟨some ⟨5, true⟩, none, none⟩ : BinState Nat).p = some ⟨5, true⟩ ∧
      (⟨some ⟨5, true⟩, none, none⟩ : BinState Nat).pnew = none) :=
  ⟨rfl, by rfl, by rfl,
    C3_update_then_rollback (fun n => n == 7) 7 ⟨some ⟨5, true⟩, none, none⟩
      ⟨some ⟨7, true⟩, none, some ⟨5, true⟩⟩ ⟨some ⟨5, true⟩, none, none⟩
      ⟨5, true⟩ rfl (by rfl) (by rfl)⟩

/-- C4: a self-update whose uploaded binary fails validation (non-zero
exit or timeout of the spawned version probe) returns an error, deletes
P.new, and leaves P and any pre-existing P.old unchanged. -/
theorem C4_validation_failure {α : Type} (valid : α → Bool) (data : α)
    (st : BinState α) (hv : valid data = false) :
    (update valid data st).1.isSome = true ∧
    (update valid data st).2.pnew = none ∧
    (update valid data st).2.p = st.p ∧
    (update valid data st).2.pold = st.pold := by
  unfold update writeNewBinary validateBinary
  simp [hv]

/-- Witness for C4 with byte type Nat: a binary whose version probe
fails. -/
theorem C4_validation_failure_witness :
    ((fun n => n == 7) 9 : Bool) = false ∧
    ((update (fun n => n == 7) 9 ⟨some ⟨5, true⟩, none, some ⟨1, true⟩⟩).1.isSome = true ∧
     (update (fun n => n == 7) 9 ⟨some ⟨5, true⟩, none, some ⟨1, true⟩⟩).2.pnew = none ∧
     (update (fun n => n == 7) 9 ⟨some ⟨5, true⟩, none, some ⟨1, true⟩⟩).2.p =
       (⟨some ⟨5, true⟩, none, some ⟨1, true⟩⟩ : BinState Nat).p ∧
     (update (fun n => n == 7) 9 ⟨some ⟨5, true⟩, none, some ⟨1, true⟩⟩).2.pold =
       (⟨some ⟨5, true⟩, none, some ⟨1, true⟩⟩ : BinState Nat).pold) :=
  ⟨by rfl, C4_validation_failure (fun n => n == 7) 9
    ⟨some ⟨5, true⟩, none, some ⟨1, true⟩⟩ (by rfl)⟩

/-! ## Claim C2 -/

/-- C2: for every uploaded zip containing an entry whose cleaned path is
absolute, begins with "..", or whose joined target resolves outside the
commit directory, extraction fails with an error mentioning zip slip, and
no file is written outside the commit directory.  The commit directory is
a clean absolute path other than the filesystem root. -/
theorem C2_zip_slip_defense (targetDir : String) (entries : List ZipEntry)
    (f : ZipEntry) (h1 : goClean targetDir = targetDir)
    (h2 : goIsAbs targetDir = true) (h3 : targetDir ≠ "/") (hf : f ∈ entries)
    (hbad : goIsAbs (goClean f.name) = true ∨
      goStartsWith (goClean f.name) ".." = true ∨
      isWithin targetDir (goJoin targetDir (goClean f.name)) = false) :
    (∃ msg, (extractZip targetDir entries).1 = some msg ∧
      goStartsWith msg "zip slip detected: " = true) ∧
    ∀ p nm, FsWrite.createFile p nm ∈ (extractZip targetDir entries).2 →
      isWithin targetDir p = true := by
  obtain ⟨msg, hmsg⟩ := extractZip_fails_of_bad targetDir entries f h1 h2 h3 hf hbad
  exact ⟨⟨msg, hmsg, extractZip_error_shape targetDir entries msg hmsg⟩,
    extractZip_createFile_within targetDir entries h1 h2 h3⟩

/-- Witness for C2 at a concrete archive containing "../etc/passwd". -/
theorem C2_zip_slip_defense_witness :
    goClean "/var/www/site/c0ffee" = "/var/www/site/c0ffee" ∧
    goIsAbs "/var/www/site/c0ffee" = true ∧
    goStartsWith (goClean "../etc/passwd") ".." = true ∧
    ((∃ msg, (extractZip "/var/www/site/c0ffee"
        [⟨"ok.txt", false⟩, ⟨"../etc/passwd", false⟩]).1 = some msg ∧
      goStartsWith msg "zip slip detected: " = true) ∧
    ∀ p nm, FsWrite.createFile p nm ∈ (extractZip "/var/www/site/c0ffee"
        [⟨"ok.txt", false⟩, ⟨"../etc/passwd", false⟩]).2 →
      isWithin "/var/www/site/c0ffee" p = true) :=
  ⟨by decide, by decide, by decide,
    C2_zip_slip_defense "/var/www/site/c0ffee"
      [⟨"ok.txt", false⟩, ⟨"../etc/passwd", false⟩] ⟨"../etc/passwd", false⟩
      (by decide) (by decide) (by decide) (by decide)
      (Or.inr (Or.inl (by decide)))⟩

/-! ## Latest-symlink promotion lemmas and claim C5 -/

theorem goJoin_eq_append (a b : String) (ha : segOK a.data) (hb : segOK b.data) :
    goJoin a b = a ++ "/" ++ b := by
  obtain ⟨ha1, ha2, ha3, ha4⟩ := ha
  obtain ⟨hb1, hb2, hb3, hb4⟩ := hb
  have hane : a ≠ "" := by
    intro h
    exact ha1 (by rw [h])
  unfold goJoin
  rw [if_neg hane]
  have hsplit : splitSlash (a.data ++ '/' :: b.data) = [a.data, b.data] := by
    rw [splitSlash_append, splitSlash_no_slash a.data ha4, splitSlash_no_slash b.data hb4]
    rfl
  have hhead : (a.data ++ '/' :: b.data).head? ≠ some '/' := by
    cases hc : a.data with
    | nil => exact absurd hc ha1
    | cons c t =>
      have hcne : c ≠ '/' := by
        intro h
        exact ha4 (hc ▸ (h ▸ List.mem_cons_self c t))
      simp [hcne]
  have hloop : cleanLoop false [] [a.data, b.data] = [b.data, a.data] := by
    have hall : ∀ e ∈ [a.data, b.data], segOK e := by
      intro e he
      rcases List.mem_cons.mp he with h | h
      · exact h ▸ ⟨ha1, ha2, ha3, ha4⟩
      · rcases List.mem_cons.mp h with h' | h'
        · exact h' ▸ ⟨hb1, hb2, hb3, hb4⟩
        · simp at h'
    have := cleanLoop_all_push false [a.data, b.data] hall []
    simpa using this
  show (⟨cleanCore (a.data ++ '/' :: b.data)⟩ : String) = a ++ "/" ++ b
  rw [cleanCore_not_rooted _ hhead, hsplit, hloop, if_neg (by simp)]
  apply String.ext
  show joinSlash [b.data, a.data].reverse = (a ++ "/" ++ b).data
  rw [String.data_append, String.data_append]
  have hjs : joinSlash [b.data, a.data].reverse = a.data ++ '/' :: b.data := rfl
  rw [hjs, List.append_assoc]
  rfl

theorem segOK_of_validCommitHash (hash : String)
    (h : isValidCommitHash hash = true) : segOK hash.data := by
  unfold isValidCommitHash at h
  rcases Bool.or_eq_true_iff.mp h with h1 | h1
  · have heq : hash = "latest" := eq_of_beq h1
    subst heq
    decide
  · unfold matchesCommitHashRegex at h1
    rw [Bool.and_eq_true, Bool.and_eq_true] at h1
    obtain ⟨⟨hlen7, _⟩, hall⟩ := h1
    rw [decide_eq_true_eq] at hlen7
    rw [List.all_eq_true] at hall
    refine ⟨?_, ?_, ?_, ?_⟩
    · intro hnil
      rw [hnil] at hlen7
      simp at hlen7
    · intro hone
      rw [hone] at hlen7
      simp at hlen7
    · intro htwo
      rw [htwo] at hlen7
      simp at hlen7
    · intro hmem
      have hslash := hall '/' hmem
      have : isHexLowerChar '/' = false := by decide
      rw [this] at hslash
      exact absurd hslash (by simp)

theorem scanSubdirs_fst (files : List String) (commitDir commitHash : String)
    (subs : List String) (hc : segOK commitHash.data)
    (hsub : ∀ sub ∈ subs, segOK sub.data) :
    (scanSubdirs files commitDir commitHash subs).1 =
      match subs.find? (fun sub =>
          files.contains (goJoin (goJoin commitDir sub) "index.html")) with
      | some sub => commitHash ++ "/" ++ sub
      | none => commitHash := by
  induction subs with
  | nil => rfl
  | cons sub rest ih =>
    by_cases hfound :
        files.contains (goJoin (goJoin commitDir sub) "index.html") = true
    · simp only [scanSubdirs, List.find?_cons, hfound]
      exact goJoin_eq_append commitHash sub hc (hsub sub (List.mem_cons_self sub rest))
    · have hfound2 : files.contains (goJoin (goJoin commitDir sub) "index.html") = false := by
        simpa using hfound
      simp only [scanSubdirs, List.find?_cons, hfound2]
      exact ih (fun s hs => hsub s (List.mem_cons_of_mem sub hs))

/-- C5: for every promotion of the latest pointer, the build
subdirectories dist, build, out, public are scanned in that fixed order —
the symlink target is commit_id/subdir for the first subdirectory
containing index.html, otherwise the commit root — and the swap is
performed by creating latest.tmp and renaming it onto latest.  The commit
id has passed the handler's commit-id validation. -/
theorem C5_promote_latest (files : List String) (latestNode : Option LatestNode)
    (frontendRoot commitHash : String)
    (hc : isValidCommitHash commitHash = true) :
    (updateLatestSymlink files latestNode frontendRoot commitHash).1 =
      specLatestTarget files frontendRoot commitHash ∧
    ∃ pre, (updateLatestSymlink files latestNode frontendRoot commitHash).2 =
      pre ++ [.symlinkTo (updateLatestSymlink files latestNode frontendRoot commitHash).1
          (goJoin frontendRoot "latest.tmp"),
        .rename (goJoin frontendRoot "latest.tmp") (goJoin frontendRoot "latest")] := by
  constructor
  · show (scanSubdirs files (goJoin frontendRoot commitHash) commitHash buildSubdirs).1 = _
    rw [scanSubdirs_fst files (goJoin frontendRoot commitHash) commitHash buildSubdirs
      (segOK_of_validCommitHash commitHash hc) (by decide)]
    rfl
  · refine ⟨LatestAction.removeTmp :: ((match latestNode with
      | some LatestNode.regular => ([LatestAction.removeAllLatest] : List LatestAction)
      | _ => []) ++
      (scanSubdirs files (goJoin frontendRoot commitHash) commitHash
        buildSubdirs).2.map LatestAction.statIndex), ?_⟩
    unfold updateLatestSymlink
    simp

/-- Witness for C5: a commit with dist/index.html present. -/
theorem C5_promote_latest_witness :
    isValidCommitHash "deadbee" = true ∧
    ((updateLatestSymlink ["/var/www/a/deadbee/dist/index.html"] none
        "/var/www/a" "deadbee").1 =
      specLatestTarget ["/var/www/a/deadbee/dist/index.html"] "/var/www/a" "deadbee" ∧
    ∃ pre, (updateLatestSymlink ["/var/www/a/deadbee/dist/index.html"] none
        "/var/www/a" "deadbee").2 =
      pre ++ [.symlinkTo (updateLatestSymlink ["/var/www/a/deadbee/dist/index.html"]
          none "/var/www/a" "deadbee").1 (goJoin "/var/www/a" "latest.tmp"),
        .rename (goJoin "/var/www/a" "latest.tmp") (goJoin "/var/www/a" "latest")]) :=
  ⟨by decide, C5_promote_latest ["/var/www/a/deadbee/dist/index.html"] none
    "/var/www/a" "deadbee" (by decide)⟩

/-! ## Association-list lemmas -/

theorem find?_filter_ne {β : Type} (l : List (String × β)) (k p : String) (h : p ≠ k) :
    (l.filter (fun e => e.1 != k)).find? (fun e => e.1 == p) =
      l.find? (fun e => e.1 == p) := by
  induction l with
  | nil => rfl
  | cons e rest ih =>
    by_cases hk : e.1 = k
    · have h1 : (e.1 != k) = false := by simp [hk]
      have h2 : (e.1 == p) = false := by simp [hk, Ne.symm h]
      rw [List.filter_cons, h1, if_neg (by simp), List.find?_cons, h2]
      exact ih
    · have h1 : (e.1 != k) = true := by simp [hk]
      by_cases hp : e.1 = p
      · have h2 : (e.1 == p) = true := by simp [hp]
        rw [List.filter_cons, h1, if_pos rfl, List.find?_cons, h2, List.find?_cons, h2]
      · have h2 : (e.1 == p) = false := by simp [hp]
        rw [List.filter_cons, h1, if_pos rfl, List.find?_cons, h2, List.find?_cons, h2]
        exact ih

theorem alGet_alSet {β : Type} (l : List (String × β)) (k p : String) (v : β) :
    alGet (alSet l k v) p = if p = k then some v else alGet l p := by
  unfold alGet alSet
  by_cases h : p = k
  · subst h
    rw [List.find?_cons]
    simp
  · rw [List.find?_cons]
    have hkp : ((k, v).1 == p) = false := by simp [Ne.symm h]
    rw [hkp, if_neg h]
    show ((l.filter (fun e => e.1 != k)).find? (fun e => e.1 == p)).map (·.2) = _
    rw [find?_filter_ne l k p h]

theorem alGet_alRemove {β : Type} (l : List (String × β)) (k p : String) (h : p ≠ k) :
    alGet (alRemove l k) p = alGet l p := by
  unfold alGet alRemove
  rw [find?_filter_ne l k p h]

theorem alGet_alRemove_self {β : Type} (l : List (String × β)) (k : String) :
    alGet (alRemove l k) k = none := by
  unfold alGet alRemove
  induction l with
  | nil => rfl
  | cons e rest ih =>
    by_cases hk : e.1 = k
    · rw [List.filter_cons, show (e.1 != k) = false by simp [hk], if_neg (by simp)]
      exact ih
    · rw [List.filter_cons, show (e.1 != k) = true by simp [hk], if_pos rfl,
        List.find?_cons, show (e.1 == k) = false by simp [hk]]
      exact ih

/-! ## Nginx manager lemmas and claims C1, C8 -/

/-- C1: for every site-deploy in which the external validator reports the
configuration invalid, the operation returns the false flag and the
validator's message without error, performs no enabled-symlink creation or
replacement and no reload, and the staged available/<site>.conf file is
already on disk.  The three managed paths are pairwise distinct, as in any
real nginx layout. -/
theorem C1_validation_failure_no_flip (cfg : NgxConfig) (reloadOk : Bool)
    (site content msg : String) (fs : List (String × NgxNode))
    (hsite : cfg.sites.contains site = true)
    (hne1 : enabledPath cfg site ≠ availablePath cfg site)
    (hne2 : enabledPath cfg site ≠ cfg.overrideConf)
    (hne3 : cfg.overrideConf ≠ availablePath cfg site) :
    (deploySiteConfigRaw cfg (false, msg) reloadOk site content fs).1 =
      ⟨false, msg, none⟩ ∧
    alGet (deploySiteConfigRaw cfg (false, msg) reloadOk site content fs).2.1
        (enabledPath cfg site) = alGet fs (enabledPath cfg site) ∧
    NgxEvent.reload ∉
      (deploySiteConfigRaw cfg (false, msg) reloadOk site content fs).2.2 ∧
    (∀ t l, NgxEvent.symlinkTo t l ∉
      (deploySiteConfigRaw cfg (false, msg) reloadOk site content fs).2.2) ∧
    alGet (deploySiteConfigRaw cfg (false, msg) reloadOk site content fs).2.1
        (availablePath cfg site) = some (.file content) := by
  unfold deploySiteConfigRaw
  rw [if_pos hsite]
  refine ⟨rfl, ?_, by simp, by intro t l; simp, ?_⟩
  · show alGet (alSet (alSet fs (availablePath cfg site) (.file content))
      cfg.overrideConf (.file cfg.overrideContent)) (enabledPath cfg site) = _
    rw [alGet_alSet, if_neg hne2, alGet_alSet, if_neg hne1]
  · show alGet (alSet (alSet fs (availablePath cfg site) (.file content))
      cfg.overrideConf (.file cfg.overrideContent)) (availablePath cfg site) = _
    rw [alGet_alSet, if_neg (Ne.symm hne3), alGet_alSet, if_pos rfl]

/-- Witness for C1 at a concrete configuration and a failing validator. -/
theorem C1_validation_failure_no_flip_witness :
    (⟨"/ngx/sa", "/ngx/se", "/ngx/override.conf", ["s.com"], "oc"⟩ :
        NgxConfig).sites.contains "s.com" = true ∧
    ((deploySiteConfigRaw ⟨"/ngx/sa", "/ngx/se", "/ngx/override.conf", ["s.com"], "oc"⟩
        (false, "bad directive") true "s.com" "cfgtext" []).1 =
      ⟨false, "bad directive", none⟩ ∧
    alGet (deploySiteConfigRaw ⟨"/ngx/sa", "/ngx/se", "/ngx/override.conf", ["s.com"], "oc"⟩
        (false, "bad directive") true "s.com" "cfgtext" []).2.1
        (enabledPath ⟨"/ngx/sa", "/ngx/se", "/ngx/override.conf", ["s.com"], "oc"⟩ "s.com") =
      alGet [] (enabledPath ⟨"/ngx/sa", "/ngx/se", "/ngx/override.conf", ["s.com"], "oc"⟩ "s.com") ∧
    NgxEvent.reload ∉
      (deploySiteConfigRaw ⟨"/ngx/sa", "/ngx/se", "/ngx/override.conf", ["s.com"], "oc"⟩
        (false, "bad directive") true "s.com" "cfgtext" []).2.2 ∧
    (∀ t l, NgxEvent.symlinkTo t l ∉
      (deploySiteConfigRaw ⟨"/ngx/sa", "/ngx/se", "/ngx/override.conf", ["s.com"], "oc"⟩
        (false, "bad directive") true "s.com" "cfgtext" []).2.2) ∧
    alGet (deploySiteConfigRaw ⟨"/ngx/sa", "/ngx/se", "/ngx/override.conf", ["s.com"], "oc"⟩
        (false, "bad directive") true "s.com" "cfgtext" []).2.1
        (availablePath ⟨"/ngx/sa", "/ngx/se", "/ngx/override.conf", ["s.com"], "oc"⟩ "s.com") =
      some (.file "cfgtext")) :=
  ⟨by decide, C1_validation_failure_no_flip
    ⟨"/ngx/sa", "/ngx/se", "/ngx/override.conf", ["s.com"], "oc"⟩ true
    "s.com" "cfgtext" "bad directive" [] (by decide) (by decide) (by decide) (by decide)⟩

/-- C8 counterexample: DeployHTTPOnlyConfig creates the enabled symlink
before running validation, so the claim that validation always precedes
the symlink is false — exhibited on a concrete bootstrap run with a
failing validator. -/
theorem C8_counterexample : ¬ configuratorValidatesFirst := by
  intro h
  exact absurd
    (h.2 ⟨"/ngx/sa", "/ngx/se", "/ngx/override.conf", [], "oc"⟩ (false, "boom")
      true "httpcfg" "a.example.com" [])
    (by decide)

theorem deployHTTPOnlyConfig_eq (cfg : NgxConfig) (validator : Bool × String)
    (reloadOk : Bool) (httpContent domain : String) (fs : List (String × NgxNode)) :
    deployHTTPOnlyConfig cfg validator reloadOk httpContent domain fs =
      if validator.1 then
        if reloadOk then
          (none,
            alSet (alRemove (alSet fs (availablePath cfg domain) (.file httpContent))
              (enabledPath cfg domain)) (enabledPath cfg domain)
              (.symlink (availablePath cfg domain)),
            [.mkdirAll cfg.sitesAvailable, .mkdirAll cfg.sitesEnabled,
              .writeFile (availablePath cfg domain) httpContent,
              .removePath (enabledPath cfg domain),
              .symlinkTo (availablePath cfg domain) (enabledPath cfg domain),
              .validate] ++ [.reload])
        else
          (some "nginx reload",
            alSet (alRemove (alSet fs (availablePath cfg domain) (.file httpContent))
              (enabledPath cfg domain)) (enabledPath cfg domain)
              (.symlink (availablePath cfg domain)),
            [.mkdirAll cfg.sitesAvailable, .mkdirAll cfg.sitesEnabled,
              .writeFile (availablePath cfg domain) httpContent,
              .removePath (enabledPath cfg domain),
              .symlinkTo (availablePath cfg domain) (enabledPath cfg domain),
              .validate] ++ [.reload])
      else
        (some ("nginx validation failed: " ++ validator.2),
          alRemove (alRemove
            (alSet (alRemove (alSet fs (availablePath cfg domain) (.file httpContent))
              (enabledPath cfg domain)) (enabledPath cfg domain)
              (.symlink (availablePath cfg domain)))
            (enabledPath cfg domain)) (availablePath cfg domain),
          [.mkdirAll cfg.sitesAvailable, .mkdirAll cfg.sitesEnabled,
            .writeFile (availablePath cfg domain) httpContent,
            .removePath (enabledPath cfg domain),
            .symlinkTo (availablePath cfg domain) (enabledPath cfg domain),
            .validate] ++ [.removePath (enabledPath cfg domain),
              .removePath (availablePath cfg domain)]) := rfl

/-- C8 as amended: DeploySiteConfigRaw validates before any
enabled-symlink creation; DeployHTTPOnlyConfig creates the symlink before
validating but removes both the enabled and the staged entry when
validation fails, so an enabled entry never outlives a failed validation;
and in both operations every created enabled/<site>.conf symlink points at
available/<site>.conf. -/
theorem C8_enabled_symlink_discipline :
    (∀ (cfg : NgxConfig) (validator : Bool × String) (reloadOk : Bool)
        (site content : String) (fs : List (String × NgxNode)),
      symlinkOnlyAfterValidate
        (deploySiteConfigRaw cfg validator reloadOk site content fs).2.2 = true) ∧
    (∀ (cfg : NgxConfig) (validator : Bool × String) (reloadOk : Bool)
        (site content : String) (fs : List (String × NgxNode)) (t l : String),
      NgxEvent.symlinkTo t l ∈
          (deploySiteConfigRaw cfg validator reloadOk site content fs).2.2 →
        t = availablePath cfg site ∧ l = enabledPath cfg site) ∧
    (∀ (cfg : NgxConfig) (validator : Bool × String) (reloadOk : Bool)
        (httpContent domain : String) (fs : List (String × NgxNode)) (t l : String),
      NgxEvent.symlinkTo t l ∈
          (deployHTTPOnlyConfig cfg validator reloadOk httpContent domain fs).2.2 →
        t = availablePath cfg domain ∧ l = enabledPath cfg domain) ∧
    (∀ (cfg : NgxConfig) (validator : Bool × String) (reloadOk : Bool)
        (httpContent domain : String) (fs : List (String × NgxNode)),
      validator.1 = false →
        alGet (deployHTTPOnlyConfig cfg validator reloadOk httpContent domain fs).2.1
          (enabledPath cfg domain) = none ∧
        alGet (deployHTTPOnlyConfig cfg validator reloadOk httpContent domain fs).2.1
          (availablePath cfg domain) = none) ∧
    (∀ (cfg : NgxConfig) (validator : Bool × String) (reloadOk : Bool)
        (httpContent domain : String) (fs : List (String × NgxNode)),
      validator.1 = true →
        alGet (deployHTTPOnlyConfig cfg validator reloadOk httpContent domain fs).2.1
          (enabledPath cfg domain) =
            some (.symlink (availablePath cfg domain))) ∧
    (∀ (cfg : NgxConfig) (validator : Bool × String) (reloadOk : Bool)
        (site content : String) (fs : List (String × NgxNode)),
      cfg.sites.contains site = true → validator.1 = true →
        alGet (deploySiteConfigRaw cfg validator reloadOk site content fs).2.1
          (enabledPath cfg site) =
            some (.symlink (availablePath cfg site))) := by
  refine ⟨?_, ?_, ?_, ?_, ?_, ?_⟩
  · intro cfg validator reloadOk site content fs
    unfold deploySiteConfigRaw
    by_cases hs : cfg.sites.contains site = true
    · rw [if_pos hs]
      rcases validator with ⟨vb, vmsg⟩
      cases vb
      · rfl
      · simp only [symlinkSiteConfig, hs]
        cases reloadOk <;> rfl
    · rw [if_neg hs]
      rfl
  · intro cfg validator reloadOk site content fs t l hmem
    unfold deploySiteConfigRaw at hmem
    by_cases hs : cfg.sites.contains site = true
    · rw [if_pos hs] at hmem
      rcases validator with ⟨vb, vmsg⟩
      cases vb
      · simp at hmem
      · simp only [symlinkSiteConfig, hs] at hmem
        cases reloadOk <;> simp at hmem <;> exact hmem
    · rw [if_neg hs] at hmem
      simp at hmem
  · intro cfg validator reloadOk httpContent domain fs t l hmem
    unfold deployHTTPOnlyConfig at hmem
    rcases validator with ⟨vb, vmsg⟩
    cases vb <;> cases reloadOk <;> simp at hmem <;> exact hmem
  · intro cfg validator reloadOk httpContent domain fs hval
    rw [deployHTTPOnlyConfig_eq, if_neg (by simp [hval])]
    dsimp only
    constructor
    · by_cases hpe : enabledPath cfg domain = availablePath cfg domain
      · rw [hpe, alGet_alRemove_self]
      · rw [alGet_alRemove _ _ _ hpe, alGet_alRemove_self]
    · rw [alGet_alRemove_self]
  · intro cfg validator reloadOk httpContent domain fs hval
    rw [deployHTTPOnlyConfig_eq, if_pos hval]
    cases reloadOk
    · rw [if_neg (by simp)]
      dsimp only
      rw [alGet_alSet, if_pos rfl]
    · rw [if_pos rfl]
      dsimp only
      rw [alGet_alSet, if_pos rfl]
  · intro cfg validator reloadOk site content fs hs hval
    unfold deploySiteConfigRaw
    rw [if_pos hs]
    rcases validator with ⟨vb, vmsg⟩
    cases vb
    · exact absurd hval (by simp)
    · have hs2 : site ∈ cfg.sites := by simpa using hs
      cases reloadOk <;> simp [symlinkSiteConfig, hs2, alGet_alSet]

/-- Witness for C8 as amended, at a concrete configuration: the
site-deploy trace validates before the flip, and a failed bootstrap
validation leaves no enabled entry. -/
theorem C8_enabled_symlink_discipline_witness :
    symlinkOnlyAfterValidate
      (deploySiteConfigRaw ⟨"/ngx/sa", "/ngx/se", "/ngx/override.conf", ["s.com"], "oc"⟩
        (true, "") true "s.com" "cfgtext" []).2.2 = true ∧
    alGet (deployHTTPOnlyConfig ⟨"/ngx/sa", "/ngx/se", "/ngx/override.conf", [], "oc"⟩
        (false, "boom") true "httpcfg" "a.example.com" []).2.1
      (enabledPath ⟨"/ngx/sa", "/ngx/se", "/ngx/override.conf", [], "oc"⟩ "a.example.com") =
      none ∧
    alGet (deployHTTPOnlyConfig ⟨"/ngx/sa", "/ngx/se", "/ngx/override.conf", [], "oc"⟩
        (true, "") true "httpcfg" "a.example.com" []).2.1
      (enabledPath ⟨"/ngx/sa", "/ngx/se", "/ngx/override.conf", [], "oc"⟩ "a.example.com") =
      some (.symlink (availablePath
        ⟨"/ngx/sa", "/ngx/se", "/ngx/override.conf", [], "oc"⟩ "a.example.com")) :=
  ⟨C8_enabled_symlink_discipline.1
      ⟨"/ngx/sa", "/ngx/se", "/ngx/override.conf", ["s.com"], "oc"⟩ (true, "") true
      "s.com" "cfgtext" [],
    (C8_enabled_symlink_discipline.2.2.2.1
      ⟨"/ngx/sa", "/ngx/se", "/ngx/override.conf", [], "oc"⟩ (false, "boom") true
      "httpcfg" "a.example.com" [] rfl).1,
    C8_enabled_symlink_discipline.2.2.2.2.1
      ⟨"/ngx/sa", "/ngx/se", "/ngx/override.conf", [], "oc"⟩ (true, "") true
      "httpcfg" "a.example.com" [] rfl⟩

/-! ## Site creation: claim C6 -/

/-- C6: for every TLS site creation in which the ACME client fails, the
temporary HTTP-only proxy config is removed and the site is not added to
the Config Registry; and the registry write happens only when both the
HTTP-only deployment and the ACME step succeed.  The request has a
non-empty, well-formed, unregistered domain and key generation
succeeded. -/
theorem C6_acme_failure_rolls_back (cfg : NgxConfig)
    (reg : List (String × SiteModel)) (req : SiteCreateRequest)
    (key nextIP httpOnlyContent backendContent : String)
    (backendValidator : Bool × String) (backendReloadOk : Bool)
    (fs : List (String × NgxNode))
    (hssl : req.sslEnabled = true) (hdom1 : req.domain ≠ "")
    (hdom2 : matchesValidDomain req.domain = true)
    (hnew : alGet reg req.domain = none) :
    (∀ (httpValidator : Bool × String) (httpReloadOk : Bool),
      httpValidator.1 = true → httpReloadOk = true →
      (siteCreate cfg reg req (some key) nextIP httpValidator httpReloadOk
          httpOnlyContent false backendValidator backendReloadOk backendContent fs).1 =
        ⟨500, "cert_generation_failed"⟩ ∧
      (siteCreate cfg reg req (some key) nextIP httpValidator httpReloadOk
          httpOnlyContent false backendValidator backendReloadOk backendContent fs).2.1 =
        reg ∧
      alGet (siteCreate cfg reg req (some key) nextIP httpValidator httpReloadOk
          httpOnlyContent false backendValidator backendReloadOk backendContent fs).2.2
        (availablePath cfg req.domain) = none ∧
      alGet (siteCreate cfg reg req (some key) nextIP httpValidator httpReloadOk
          httpOnlyContent false backendValidator backendReloadOk backendContent fs).2.2
        (enabledPath cfg req.domain) = none) ∧
    (∀ (httpValidator : Bool × String) (httpReloadOk acmeOk : Bool),
      ¬(httpValidator.1 = true ∧ httpReloadOk = true ∧ acmeOk = true) →
      (siteCreate cfg reg req (some key) nextIP httpValidator httpReloadOk
          httpOnlyContent acmeOk backendValidator backendReloadOk backendContent fs).2.1 =
        reg) := by
  constructor
  · intro hv hro hval hrel
    subst hrel
    rcases hv with ⟨vb, vmsg⟩
    cases vb
    · exact absurd hval (by simp)
    · have hcompute : siteCreate cfg reg req (some key) nextIP (true, vmsg) true
          httpOnlyContent false backendValidator backendReloadOk backendContent fs =
          (⟨500, "cert_generation_failed"⟩, reg,
            alRemove (alRemove (alSet (alRemove (alSet fs (availablePath cfg req.domain)
              (.file httpOnlyContent)) (enabledPath cfg req.domain))
              (enabledPath cfg req.domain) (.symlink (availablePath cfg req.domain)))
              (enabledPath cfg req.domain)) (availablePath cfg req.domain)) := by
        unfold siteCreate
        simp [hdom1, hdom2, hnew, hssl, deployHTTPOnlyConfig_eq,
          removeSiteConfigByDomain]
      rw [hcompute]
      refine ⟨rfl, rfl, ?_, ?_⟩
      · rw [alGet_alRemove_self]
      · by_cases hpe : enabledPath cfg req.domain = availablePath cfg req.domain
        · rw [hpe, alGet_alRemove_self]
        · rw [alGet_alRemove _ _ _ hpe, alGet_alRemove_self]
  · intro hv hro acme hno
    by_cases hvb : hv.1 = true
    · by_cases hrob : hro = true
      · have hacme : acme = false := by
          cases acme
          · rfl
          · exact absurd ⟨hvb, hrob, rfl⟩ hno
        subst hacme
        subst hrob
        rcases hv with ⟨vb, vmsg⟩
        cases vb
        · simp at hvb
        · unfold siteCreate
          simp [hdom1, hdom2, hnew, hssl, deployHTTPOnlyConfig_eq,
            removeSiteConfigByDomain]
      · have hrof : hro = false := by simpa using hrob
        subst hrof
        rcases hv with ⟨vb, vmsg⟩
        cases vb
        · simp at hvb
        · unfold siteCreate
          simp [hdom1, hdom2, hnew, hssl, deployHTTPOnlyConfig_eq]
    · have hvf : hv.1 = false := by simpa using hvb
      rcases hv with ⟨vb, vmsg⟩
      cases vb
      · unfold siteCreate
        simp [hdom1, hdom2, hnew, hssl, deployHTTPOnlyConfig_eq]
      · simp at hvf

/-- Witness for C6: a TLS site creation for a fresh domain where the
HTTP-only step succeeds and the ACME client fails. -/
theorem C6_acme_failure_rolls_back_witness :
    ("a.example.com" : String) ≠ "" ∧
    matchesValidDomain "a.example.com" = true ∧
    ((siteCreate ⟨"/ngx/sa", "/ngx/se", "/ngx/override.conf", [], "oc"⟩ []
        ⟨"a.example.com", "", true, false, 0, ""⟩ (some "sk-site-x") "127.0.1.2"
        (true, "") true "httpcfg" false (true, "") true "bcfg" []).1 =
      ⟨500, "cert_generation_failed"⟩ ∧
    (siteCreate ⟨"/ngx/sa", "/ngx/se", "/ngx/override.conf", [], "oc"⟩ []
        ⟨"a.example.com", "", true, false, 0, ""⟩ (some "sk-site-x") "127.0.1.2"
        (true, "") true "httpcfg" false (true, "") true "bcfg" []).2.1 = [] ∧
    alGet (siteCreate ⟨"/ngx/sa", "/ngx/se", "/ngx/override.conf", [], "oc"⟩ []
        ⟨"a.example.com", "", true, false, 0, ""⟩ (some "sk-site-x") "127.0.1.2"
        (true, "") true "httpcfg" false (true, "") true "bcfg" []).2.2
      (availablePath ⟨"/ngx/sa", "/ngx/se", "/ngx/override.conf", [], "oc"⟩
        "a.example.com") = none ∧
    alGet (siteCreate ⟨"/ngx/sa", "/ngx/se", "/ngx/override.conf", [], "oc"⟩ []
        ⟨"a.example.com", "", true, false, 0, ""⟩ (some "sk-site-x") "127.0.1.2"
        (true, "") true "httpcfg" false (true, "") true "bcfg" []).2.2
      (enabledPath ⟨"/ngx/sa", "/ngx/se", "/ngx/override.conf", [], "oc"⟩
        "a.example.com") = none) :=
  ⟨by decide, by decide,
    (C6_acme_failure_rolls_back ⟨"/ngx/sa", "/ngx/se", "/ngx/override.conf", [], "oc"⟩
      [] ⟨"a.example.com", "", true, false, 0, ""⟩ "sk-site-x" "127.0.1.2" "httpcfg"
      "bcfg" (true, "") true [] rfl (by decide) (by decide) rfl).1
      (true, "") true rfl rfl⟩

/-! ## Health monitor: claim C9 -/

/-- C9 counterexample: on the first tick for a site the monitor creates
the status record with a zero counter even when the probe failed, so the
claimed "a failed probe increments the counter" is false at threshold 3
for an untracked site. -/
theorem C9_counterexample : ¬ monitorTickClaim 3 false none := by decide

theorem tickSite_some_eq (threshold : Nat) (healthy : Bool) (st : ServiceStatus) :
    tickSite threshold healthy (some st) =
      if !healthy then
        if threshold ≤ st.consecutiveFailures + 1 then (⟨0, false⟩, true)
        else (⟨st.consecutiveFailures + 1, false⟩, false)
      else (⟨0, true⟩, false) := rfl

theorem tickSite_lt (threshold : Nat) (healthy : Bool)
    (prev : Option ServiceStatus) (hpos : 1 ≤ threshold) :
    (tickSite threshold healthy prev).1.consecutiveFailures < threshold := by
  cases prev with
  | none => exact hpos
  | some st =>
    rw [tickSite_some_eq]
    cases healthy with
    | true =>
      rw [if_neg (show ¬((!true) = true) from by decide)]
      exact hpos
    | false =>
      rw [if_pos (show (!false) = true from rfl)]
      by_cases hth : threshold ≤ st.consecutiveFailures + 1
      · rw [if_pos hth]
        exact hpos
      · rw [if_neg hth]
        show st.consecutiveFailures + 1 < threshold
        omega

/-- C9 as amended: for a site already tracked by the monitor, a
successful probe resets consecutive_failures to 0 and a failed probe
increments it, restarting the service and resetting the counter when the
configured threshold is reached; a site's first tick records a zero
counter whatever the probe said; and after every tick every tracked
counter is strictly below the threshold, provided the threshold is
positive (the configured default is 3). -/
theorem C9_monitor_tick (threshold : Nat) (hpos : 1 ≤ threshold) :
    (∀ (healthy : Bool) (st : ServiceStatus),
      monitorTickClaim threshold healthy (some st)) ∧
    (∀ healthy : Bool, tickSite threshold healthy none = (⟨0, healthy⟩, false) ∧
      (tickSite threshold healthy none).1.consecutiveFailures < threshold) ∧
    (∀ (health : String → Bool) (sites : List (String × Bool))
        (statusMap : List (String × ServiceStatus)),
      (∀ e ∈ statusMap, e.2.consecutiveFailures < threshold) →
      ∀ e ∈ (checkAllServices threshold health sites statusMap).1,
        e.2.consecutiveFailures < threshold) := by
  refine ⟨?_, ?_, ?_⟩
  · intro healthy st
    unfold monitorTickClaim
    refine ⟨?_, ?_, tickSite_lt threshold healthy (some st) hpos⟩
    · intro hh
      subst hh
      rfl
    · intro hh
      subst hh
      constructor
      · intro hlt
        have hlt2 : st.consecutiveFailures + 1 < threshold := by simpa using hlt
        rw [tickSite_some_eq, if_pos (show (!false) = true from rfl),
          if_neg (show ¬ threshold ≤ st.consecutiveFailures + 1 from by omega)]
        constructor
        · simp
        · rfl
      · intro hge
        have hge2 : threshold ≤ st.consecutiveFailures + 1 := by simpa using hge
        rw [tickSite_some_eq, if_pos (show (!false) = true from rfl), if_pos hge2]
        exact ⟨rfl, rfl⟩
  · intro healthy
    exact ⟨rfl, hpos⟩
  · intro health sites
    induction sites with
    | nil =>
      intro statusMap h e he
      exact h e he
    | cons s rest ih =>
      intro statusMap h e he
      rcases s with ⟨name, hasB⟩
      cases hasB with
      | false =>
        exact ih statusMap h e he
      | true =>
        refine ih (alSet statusMap name
          (tickSite threshold (health name) (alGet statusMap name)).1) ?_ e ?_
        · intro e2 he2
          unfold alSet at he2
          rcases List.mem_cons.mp he2 with h1 | h1
          · rw [h1]
            exact tickSite_lt threshold (health name) (alGet statusMap name) hpos
          · exact h e2 (List.mem_of_mem_filter h1)
        · exact he

/-- Witness for C9 as amended at threshold 3: a tracked site one failure
short of the threshold restarts and resets during the tick. -/
theorem C9_monitor_tick_witness :
    (1 : Nat) ≤ 3 ∧
    monitorTickClaim 3 false (some ⟨2, false⟩) ∧
    tickSite 3 false none = (⟨0, false⟩, false) ∧
    (∀ e ∈ (checkAllServices 3 (fun _ => false) [("s.com", true)]
        [("s.com", (⟨2, false⟩ : ServiceStatus))]).1,
      e.2.consecutiveFailures < 3) :=
  ⟨by decide, (C9_monitor_tick 3 (by decide)).1 false ⟨2, false⟩,
    ((C9_monitor_tick 3 (by decide)).2.1 false).1,
    (C9_monitor_tick 3 (by decide)).2.2 (fun _ => false) [("s.com", true)]
      [("s.com", ⟨2, false⟩)] (by decide)⟩

/-! ## Request authentication: claim C10 -/

/-- C10: on the site-scoped deploy routes the SiteAuth middleware looks
the named site up before any credential comparison: a request naming an
unknown site receives 404 site_not_found for every X-Shipyard-Key value,
admin keys included, and the credential rules (site api key or any admin
key passes, anything else is 401) apply only once the site exists. -/
theorem C10_lookup_before_credential (reg : List (String × SiteModel))
    (adminKeys : List String) (siteName : String)
    (hnone : alGet reg siteName = none) :
    (∀ key : String, siteAuth reg adminKeys true (some siteName) key =
      .notFound "site_not_found") ∧
    (∀ key : String, adminKeys.contains key = true →
      siteAuth reg adminKeys true (some siteName) key = .notFound "site_not_found") ∧
    (∀ (reg2 : List (String × SiteModel)) (site2 : String) (site : SiteModel)
        (key : String),
      alGet reg2 site2 = some site → key ≠ "" →
      (siteAuth reg2 adminKeys true (some site2) key = .next ↔
        key = site.apiKey ∨ adminKeys.contains key = true)) := by
  refine ⟨?_, ?_, ?_⟩
  · intro key
    simp [siteAuth, hnone]
  · intro key _
    simp [siteAuth, hnone]
  · intro reg2 site2 site key hsome hkey
    simp only [siteAuth, hsome]
    rw [if_neg (show ¬((!true) = true) from by decide)]
    rw [if_neg hkey]
    by_cases hapi : key = site.apiKey
    · rw [if_pos hapi]
      exact ⟨fun _ => Or.inl hapi, fun _ => rfl⟩
    · rw [if_neg hapi]
      by_cases hadm : adminKeys.contains key = true
      · rw [if_pos (by simpa using hadm)]
        exact ⟨fun _ => Or.inr hadm, fun _ => rfl⟩
      · rw [if_neg (by simpa using hadm)]
        constructor
        · intro h
          exact absurd h (by simp)
        · intro h
          rcases h with h | h
          · exact absurd h hapi
          · exact absurd h hadm

/-- Witness for C10: an unknown site is 404 even with the admin key, and
with the site present the site key passes. -/
theorem C10_lookup_before_credential_witness :
    alGet ([("s.com", (⟨"/var/www/s", "k1", [], false, none⟩ : SiteModel))])
      "nope.com" = none ∧
    siteAuth [("s.com", (⟨"/var/www/s", "k1", [], false, none⟩ : SiteModel))]
      ["adm"] true (some "nope.com") "adm" = .notFound "site_not_found" ∧
    (siteAuth [("s.com", (⟨"/var/www/s", "k1", [], false, none⟩ : SiteModel))]
      ["adm"] true (some "s.com") "k1" = .next ↔
      ("k1" : String) = "k1" ∨ (["adm"] : List String).contains "k1" = true) :=
  ⟨by decide,
    (C10_lookup_before_credential
      [("s.com", ⟨"/var/www/s", "k1", [], false, none⟩)] ["adm"] "nope.com"
      (by decide)).2.1 "adm" (by decide),
    (C10_lookup_before_credential
      [("s.com", ⟨"/var/www/s", "k1", [], false, none⟩)] ["adm"] "nope.com"
      (by decide)).2.2 [("s.com", ⟨"/var/www/s", "k1", [], false, none⟩)]
      "s.com" ⟨"/var/www/s", "k1", [], false, none⟩ "k1" (by decide) (by decide)⟩

/-! ## Commit-id validation: claim C7 -/

theorem isHexLowerChar_iff_mem (c : Char) :
    isHexLowerChar c = true ↔ c ∈ ("0123456789abcdef" : String).data := by
  constructor
  · intro h
    unfold isHexLowerChar at h
    simp only [Bool.or_eq_true, Bool.and_eq_true, decide_eq_true_eq] at h
    rcases h with ⟨h1, h2⟩ | ⟨h1, h2⟩
    · have n1 : (48 : Nat) ≤ c.toNat := h1
      have n2 : c.toNat ≤ 57 := h2
      rw [← Char.ofNat_toNat c]
      interval_cases h : c.toNat <;> decide
    · have n1 : (97 : Nat) ≤ c.toNat := h1
      have n2 : c.toNat ≤ 102 := h2
      rw [← Char.ofNat_toNat c]
      interval_cases h : c.toNat <;> decide
  · intro h
    fin_cases h <;> decide

theorem isValidCommitHash_iff_spec (hash : String) :
    isValidCommitHash hash = true ↔ specCommitIdOk hash := by
  unfold isValidCommitHash specCommitIdOk matchesCommitHashRegex
  rw [Bool.or_eq_true, Bool.and_eq_true, Bool.and_eq_true]
  constructor
  · rintro (h | ⟨⟨h7, h40⟩, hall⟩)
    · exact Or.inl (eq_of_beq h)
    · refine Or.inr ⟨of_decide_eq_true h7, of_decide_eq_true h40, ?_⟩
      intro c hc
      exact (isHexLowerChar_iff_mem c).mp (List.all_eq_true.mp hall c hc)
  · rintro (h | ⟨h7, h40, hall⟩)
    · subst h
      left
      rfl
    · right
      refine ⟨⟨decide_eq_true h7, decide_eq_true h40⟩, ?_⟩
      rw [List.all_eq_true]
      intro c hc
      exact (isHexLowerChar_iff_mem c).mpr (hall c hc)

/-- C7: for a deploy request whose earlier checks pass (fields present,
site known, not backend-only), the commit id is accepted exactly when it
is the literal latest or a string of 7 to 40 lowercase hexadecimal
characters; any other value is rejected with HTTP 400
invalid_commit_hash. -/
theorem C7_commit_id_validation (reg : List (String × SiteModel))
    (siteName commitHash : String) (site : SiteModel)
    (hsite : alGet reg siteName = some site)
    (hfe : site.isBackendOnly = false) :
    (deployFrontendCheck reg (some siteName) (some commitHash) = .proceed ↔
      specCommitIdOk commitHash) ∧
    (¬ specCommitIdOk commitHash →
      deployFrontendCheck reg (some siteName) (some commitHash) =
        .badRequest "invalid_commit_hash") := by
  have hred : deployFrontendCheck reg (some siteName) (some commitHash) =
      if !isValidCommitHash commitHash then .badRequest "invalid_commit_hash"
      else .proceed := by
    simp only [deployFrontendCheck, hsite]
    rw [if_neg (by rw [hfe]; exact Bool.false_ne_true)]
  cases hv : isValidCommitHash commitHash with
  | true =>
    have hspec : specCommitIdOk commitHash :=
      (isValidCommitHash_iff_spec commitHash).mp hv
    rw [hred, hv]
    exact ⟨⟨fun _ => hspec, fun _ => by rw [if_neg (by decide)]⟩,
      fun hno => absurd hspec hno⟩
  | false =>
    have hspec : ¬ specCommitIdOk commitHash := by
      intro hs
      rw [(isValidCommitHash_iff_spec commitHash).mpr hs] at hv
      exact absurd hv (by simp)
    rw [hred, hv]
    rw [if_pos (by decide)]
    exact ⟨⟨fun h => absurd h (by simp), fun hs => absurd hs hspec⟩,
      fun _ => rfl⟩

/-- Witness for C7: with a known frontend site, the 7-hex commit abc1234
is accepted, and the uppercase ABC1234 is rejected with 400. -/
theorem C7_commit_id_validation_witness :
    alGet [("s.com", (⟨"/var/www/s", "k1", [], false, none⟩ : SiteModel))] "s.com" =
      some ⟨"/var/www/s", "k1", [], false, none⟩ ∧
    (deployFrontendCheck [("s.com", ⟨"/var/www/s", "k1", [], false, none⟩)]
        (some "s.com") (some "abc1234") = .proceed ↔ specCommitIdOk "abc1234") ∧
    specCommitIdOk "abc1234" ∧
    ¬ specCommitIdOk "ABC1234" ∧
    deployFrontendCheck [("s.com", ⟨"/var/www/s", "k1", [], false, none⟩)]
      (some "s.com") (some "ABC1234") = .badRequest "invalid_commit_hash" :=
  ⟨by decide,
    (C7_commit_id_validation [("s.com", ⟨"/var/www/s", "k1", [], false, none⟩)]
      "s.com" "abc1234" ⟨"/var/www/s", "k1", [], false, none⟩ (by decide) (by decide)).1,
    by decide, by decide,
    (C7_commit_id_validation [("s.com", ⟨"/var/www/s", "k1", [], false, none⟩)]
      "s.com" "ABC1234" ⟨"/var/www/s", "k1", [], false, none⟩ (by decide) (by decide)).2
      (by decide)⟩

end Shipyard
